import Mathlib

/-!
Verification of the dependency-graph construction engine of the `code-mentor`
repository (`src/dependency_graph.py`, with the builtin-exclusion configuration
from `src/helper.py`).  The Python source is shallowly embedded: tree-sitter
syntax trees become a small Python AST (`PyExpr`, `PyStmt`), the structural
queries of `DependencyExtractor` become recursive capture functions over that
AST, and the mutable `DependencyGraph` object becomes a state record threaded
through the operations.  Python dictionaries are modelled as functions
`String → Option α`, Python sets as `Finset String` (or as duplicate-free
lists where iteration order is used), and a Python `KeyError` is modelled by
an operation returning `none`.
-/

namespace CodeMentor

/-- Shallow embedding of the Python expression shapes relevant to the
tree-sitter queries in `DependencyExtractor.resolve_dependencies`:
identifiers, attribute access chains, call expressions, and a catch-all
atom `lit` for any other expression (literals, etc.). -/
inductive PyExpr where
  | name (s : String)
  | attr (obj : PyExpr) (field : String)
  | call (fn : PyExpr) (args : List PyExpr)
  | lit

/-- Shallow embedding of the Python statement shapes relevant to the
extractor's queries: expression statements, function definitions (with a
body block), `import a.b` statements, `from a.b import c, d` statements,
and a catch-all `pass`. -/
inductive PyStmt where
  | exprStmt (e : PyExpr)
  | funcDef (nm : String) (body : List PyStmt)
  | importStmt (modName : String)
  | importFrom (modName : String) (names : List String)
  | pass

/-- A parsed source file: its repository path together with its syntax tree
(the list of top-level statements). -/
structure PyFile where
  path : String
  stmts : List PyStmt

/-! ### Tree-sitter query capture functions

`(call function: (identifier) @call_name)` and
`(call function: (attribute attribute: (identifier) @attr_call))` capture,
anywhere in the queried subtree, the bare callee identifier respectively the
rightmost identifier of an attribute call.  Tree-sitter queries search the
whole subtree, including the bodies of nested function definitions. -/

mutual

/-- All `@call_name` captures (bare-identifier callees) in an expression
subtree, in tree order. -/
def exprCallNames : PyExpr → List String
  | .name _ => []
  | .lit => []
  | .attr obj _ => exprCallNames obj
  | .call fn args =>
      (match fn with
        | .name s => [s]
        | _ => []) ++ exprCallNames fn ++ exprsCallNames args

/-- The `@call_name` captures of a list of expressions. -/
def exprsCallNames : List PyExpr → List String
  | [] => []
  | e :: es => exprCallNames e ++ exprsCallNames es

end

mutual

/-- All `@attr_call` captures (rightmost identifier of an attribute callee)
in an expression subtree, in tree order. -/
def exprAttrCalls : PyExpr → List String
  | .name _ => []
  | .lit => []
  | .attr obj _ => exprAttrCalls obj
  | .call fn args =>
      (match fn with
        | .attr _ f => [f]
        | _ => []) ++ exprAttrCalls fn ++ exprsAttrCalls args

/-- The `@attr_call` captures of a list of expressions. -/
def exprsAttrCalls : List PyExpr → List String
  | [] => []
  | e :: es => exprAttrCalls e ++ exprsAttrCalls es

end

mutual

/-- All `@call_name` captures in a statement subtree (queries descend into the
bodies of nested function definitions). -/
def stmtCallNames : PyStmt → List String
  | .exprStmt e => exprCallNames e
  | .funcDef _ body => stmtsCallNames body
  | .importStmt _ => []
  | .importFrom _ _ => []
  | .pass => []

/-- The `@call_name` captures of a statement list (a `block`). -/
def stmtsCallNames : List PyStmt → List String
  | [] => []
  | s :: ss => stmtCallNames s ++ stmtsCallNames ss

end

mutual

/-- All `@attr_call` captures in a statement subtree. -/
def stmtAttrCalls : PyStmt → List String
  | .exprStmt e => exprAttrCalls e
  | .funcDef _ body => stmtsAttrCalls body
  | .importStmt _ => []
  | .importFrom _ _ => []
  | .pass => []

/-- The `@attr_call` captures of a statement list. -/
def stmtsAttrCalls : List PyStmt → List String
  | [] => []
  | s :: ss => stmtAttrCalls s ++ stmtsAttrCalls ss

end

mutual

/-- Captures of the import query of `resolve_dependencies`:
`(import_statement name: (dotted_name) @mod)`,
`(import_from_statement module_name: (dotted_name) @mod)`, and
`(import_from_statement name: (dotted_name) @mod)`. -/
def stmtImportMods : PyStmt → List String
  | .importStmt m => [m]
  | .importFrom m ns => m :: ns
  | .funcDef _ body => stmtsImportMods body
  | .exprStmt _ => []
  | .pass => []

/-- Import captures of a statement list. -/
def stmtsImportMods : List PyStmt → List String
  | [] => []
  | s :: ss => stmtImportMods s ++ stmtsImportMods ss

end

mutual

/-- Matches of the grouped query
`(function_definition name: (identifier) @func_name body: (block) @body)`:
every function definition in the subtree, paired with its body, in tree
(pre-)order.  Nested definitions are matched as well. -/
def stmtFuncDefs : PyStmt → List (String × List PyStmt)
  | .funcDef n body => (n, body) :: stmtsFuncDefs body
  | .exprStmt _ => []
  | .importStmt _ => []
  | .importFrom _ _ => []
  | .pass => []

/-- Function-definition matches of a statement list. -/
def stmtsFuncDefs : List PyStmt → List (String × List PyStmt)
  | [] => []
  | s :: ss => stmtFuncDefs s ++ stmtsFuncDefs ss

end

/-! ### Python string helpers (kernel-computable translations)

`pyReplaceDots` translates `mod_name.replace('.', '/')` and `pyEndsWith`
translates `str.endswith`, both expressed over the character list so that
concrete instances reduce by `decide`. -/

/-- Translation of `mod_name.replace('.', '/')`: replace every dot by a path separator. -/
def pyReplaceDots (s : String) : String :=
  ⟨s.data.map (fun c => if c = '.' then '/' else c)⟩

/-- Translation of `path.endswith(suffix)`. -/
def pyEndsWith (s suffix : String) : Bool :=
  suffix.data.isSuffixOf s.data

/-- The composite key `f"{file_path}::{func_name}"` of `add_function`. -/
def uniqueName (file_path func_name : String) : String :=
  file_path ++ "::" ++ func_name

/-! ### Dictionary and set models -/

/-- Pointwise update of a dictionary modelled as a function. -/
def upd {α : Type} (d : String → Option α) (k : String) (v : α) :
    String → Option α :=
  fun x => if x = k then some v else d x

/-- Python `set.add` on a list kept free of duplicates (set membership). -/
def pyInsert (xs : List String) (p : String) : List String :=
  if p ∈ xs then xs else xs ++ [p]

/-- The state of `DependencyGraph` (src/dependency_graph.py, lines 7-14):
`files` is a set of file paths, `functions` maps composite keys to file
paths, `file_dependencies` and `function_dependencies` map sources to edge
sets, `function_definitions` maps a file to its `(func_name, unique_name)`
list, and `function_name_index` maps a local name to the list of composite
keys registered under it. -/
structure DependencyGraph where
  files : List String
  functions : String → Option String
  file_dependencies : String → Option (Finset String)
  function_dependencies : String → Option (Finset String)
  function_definitions : String → Option (List (String × String))
  function_name_index : String → Option (List String)

/-- The freshly constructed graph (`DependencyGraph.__init__`). -/
def emptyGraph : DependencyGraph :=
  ⟨[], fun _ => none, fun _ => none, fun _ => none, fun _ => none, fun _ => none⟩

/-- Method `DependencyGraph.add_file`: add the path to the file set and give it an
empty file-edge set if it does not have one yet. -/
def add_file (g : DependencyGraph) (file_path : String) : DependencyGraph :=
  { g with
    files := pyInsert g.files file_path
    file_dependencies :=
      if (g.file_dependencies file_path).isSome then g.file_dependencies
      else upd g.file_dependencies file_path ∅ }

/-- Method `DependencyGraph.add_function`: derive the composite key
`file_path::func_name`, record it in the function table, give it an empty
call-edge set if absent, append `(func_name, unique_name)` to the file's
definition list, and append the key to the name index entry of `func_name`.
Returns the composite key together with the new state. -/
def add_function (g : DependencyGraph) (func_name file_path : String) :
    String × DependencyGraph :=
  let u := uniqueName file_path func_name
  (u,
    { g with
      functions := upd g.functions u file_path
      function_dependencies :=
        if (g.function_dependencies u).isSome then g.function_dependencies
        else upd g.function_dependencies u ∅
      function_definitions :=
        upd g.function_definitions file_path
          (((g.function_definitions file_path).getD []) ++ [(func_name, u)])
      function_name_index :=
        upd g.function_name_index func_name
          (((g.function_name_index func_name).getD []) ++ [u]) })

/-- Method `DependencyGraph.add_file_dependency`: a no-op unless both files are in
the file set; otherwise insert the target into the source's edge set.  The
direct subscript `self.file_dependencies[source_file]` raises a `KeyError`
(modelled as `none`) if the source has no edge-set entry. -/
def add_file_dependency (g : DependencyGraph) (source_file target_file : String) :
    Option DependencyGraph :=
  if source_file ∈ g.files ∧ target_file ∈ g.files then
    match g.file_dependencies source_file with
    | some st =>
        some { g with
          file_dependencies :=
            upd g.file_dependencies source_file (insert target_file st) }
    | none => none
  else
    some g

/-- Method `DependencyGraph.add_function_dependency`: if the target local name has
a name-index entry, insert every composite key listed there into the
source's call-edge set; the subscript
`self.function_dependencies[source_func_unique]` raises a `KeyError`
(modelled as `none`) if the source key has no edge-set entry.  A missing
index entry makes the whole call a silent no-op. -/
def add_function_dependency (g : DependencyGraph)
    (source_func_unique target_func_name : String) : Option DependencyGraph :=
  match g.function_name_index target_func_name with
  | some ms =>
      ms.foldlM (fun g' m =>
        match g'.function_dependencies source_func_unique with
        | some s =>
            some { g' with
              function_dependencies :=
                upd g'.function_dependencies source_func_unique (insert m s) }
        | none => none) g
  | none => some g

/-! ### The extractor (`DependencyExtractor`) -/

/-- Method `DependencyExtractor.extract_definitions`: register the file, then
register every function-definition name captured in the tree. -/
def extract_definitions (file : PyFile) (g : DependencyGraph) : DependencyGraph :=
  let g1 := add_file g file.path
  (stmtsFuncDefs file.stmts).foldl (fun gp nb => (add_function gp nb.1 file.path).2) g1

/-- The import-resolution half of `DependencyExtractor.resolve_dependencies`
(lines 149-180): for every captured dotted module name, build the two
candidate path suffixes and add a file edge for every known file, other
than the source file itself, whose path ends with either suffix. -/
def resolve_imports (file_path : String) (mods : List String)
    (g : DependencyGraph) : Option DependencyGraph :=
  mods.foldlM (fun g0 mod_name =>
    let expected_suffix := pyReplaceDots mod_name ++ ".py"
    let expected_init := pyReplaceDots mod_name ++ "/__init__.py"
    g0.files.foldlM (fun g1 other_file =>
      if (pyEndsWith other_file expected_suffix ∨ pyEndsWith other_file expected_init)
          ∧ other_file ≠ file_path then
        add_file_dependency g1 file_path other_file
      else
        some g1) g0) g

/-- The call-resolution half of `DependencyExtractor.resolve_dependencies`
(lines 219-265): for every function-definition match `(name, body)` in the
tree, gather the `@call_name` captures followed by the `@attr_call`
captures inside that body, and feed each captured target to
`add_function_dependency` with the composite key `file_path::name` as
source. -/
def resolve_calls (file_path : String) (defs : List (String × List PyStmt))
    (g : DependencyGraph) : Option DependencyGraph :=
  defs.foldlM (fun g0 nb =>
    let u := uniqueName file_path nb.1
    let calls_found := stmtsCallNames nb.2 ++ stmtsAttrCalls nb.2
    calls_found.foldlM (fun g1 target_call =>
      add_function_dependency g1 u target_call) g0) g

/-- Method `DependencyExtractor.resolve_dependencies`: imports first, then calls. -/
def resolve_dependencies (file : PyFile) (g : DependencyGraph) :
    Option DependencyGraph :=
  (resolve_imports file.path (stmtsImportMods file.stmts) g).bind
    (fun g1 => resolve_calls file.path (stmtsFuncDefs file.stmts) g1)

/-- Phase 1 of the analysis: collect the definitions of every file. -/
def runPhase1 (files : List PyFile) (g : DependencyGraph) : DependencyGraph :=
  files.foldl (fun g0 f => extract_definitions f g0) g

/-- Phase 2 of the analysis: resolve the dependencies of every file. -/
def runPhase2 (files : List PyFile) (g : DependencyGraph) :
    Option DependencyGraph :=
  files.foldlM (fun g0 f => resolve_dependencies f g0) g

/-- Modelled from the spec: the two-phase driver of the analysis is not
part of src/ (the spec's section 2 states that phase 1 runs the Definition
Collector over every file and phase 2, only after phase 1 is complete for
all files, runs the Import Resolver and Call Resolver over every file);
this composes the src/ components in exactly that order, starting from a
given graph state. -/
def runAnalysisFrom (g : DependencyGraph) (files : List PyFile) :
    Option DependencyGraph :=
  runPhase2 files (runPhase1 files g)

/-- Modelled from the spec: one full two-phase analysis of a file set,
starting from a freshly constructed graph. -/
def runAnalysis (files : List PyFile) : Option DependencyGraph :=
  runAnalysisFrom emptyGraph files

/-! ### Derived views -/

/-- The call-edge set of a composite key (empty when the key is absent). -/
def edgesOf (g : DependencyGraph) (k : String) : Finset String :=
  (g.function_dependencies k).getD ∅

/-- The file-edge set of a file path (empty when the path is absent). -/
def fileEdgesOf (g : DependencyGraph) (p : String) : Finset String :=
  (g.file_dependencies p).getD ∅

/-- The name-index entry list of a local name (empty when absent). -/
def idxEntries (g : DependencyGraph) (n : String) : List String :=
  (g.function_name_index n).getD []

/-- The concatenation of the two call-capture lists of a body, in the order
`resolve_dependencies` processes them. -/
def bodyCalls (body : List PyStmt) : List String :=
  stmtsCallNames body ++ stmtsAttrCalls body

/-- Set `PYTHON_BUILTINS` from src/helper.py (also duplicated in src/main.py):
the builtin-name exclusion set used by `extract_calls`. -/
def PYTHON_BUILTINS : List String :=
  ["abs", "all", "any", "ascii", "bin", "bool", "breakpoint", "bytearray",
   "bytes", "callable", "chr", "classmethod", "compile", "complex",
   "delattr", "dict", "dir", "divmod", "enumerate", "eval", "exec",
   "filter", "float", "format", "frozenset", "getattr", "globals",
   "hasattr", "hash", "help", "hex", "id", "input", "int", "isinstance",
   "issubclass", "iter", "len", "list", "locals", "map", "max",
   "memoryview", "min", "next", "object", "oct", "open", "ord", "pow",
   "print", "property", "range", "repr", "reversed", "round", "set",
   "setattr", "slice", "sorted", "staticmethod", "str", "sum", "super",
   "tuple", "type", "vars", "zip", "__import__"]

/-- The identifiers of an attribute chain, leftmost first (used to state
that attribute-call capture takes the rightmost identifier). -/
def attrChainIdents : PyExpr → List String
  | .name s => [s]
  | .attr obj f => attrChainIdents obj ++ [f]
  | .call _ _ => []
  | .lit => []

/-! ### The Graph Store's public operations (for reachable-state claims) -/

/-- One public operation of the Graph Store (spec section 4.2), mapped to
the `DependencyGraph` methods of the source. -/
inductive GOp where
  | registerFile (p : String)
  | registerFunction (n p : String)
  | addFileEdge (s t : String)
  | addCallEdge (s t : String)

/-- Apply one public operation; edge operations may raise (`none`). -/
def applyOp (g : DependencyGraph) : GOp → Option DependencyGraph
  | .registerFile p => some (add_file g p)
  | .registerFunction n p => some (add_function g n p).2
  | .addFileEdge s t => add_file_dependency g s t
  | .addCallEdge s t => add_function_dependency g s t

/-- Run a sequence of public operations from a given state. -/
def runOpsFrom (g : DependencyGraph) (ops : List GOp) : Option DependencyGraph :=
  ops.foldlM applyOp g

/-- Run a sequence of public operations from the fresh graph. -/
def runOps (ops : List GOp) : Option DependencyGraph :=
  runOpsFrom emptyGraph ops

/-- The composite keys produced by the `registerFunction` operations of a
sequence, restricted to a given local name, in order. -/
def regsFor (ops : List GOp) (n : String) : List String :=
  ops.filterMap (fun op =>
    match op with
    | .registerFunction n' p => if n' = n then some (uniqueName p n') else none
    | _ => none)

/-- All composite keys produced by the `registerFunction` operations of a
sequence, in order. -/
def regKeys (ops : List GOp) : List String :=
  ops.filterMap (fun op =>
    match op with
    | .registerFunction n p => some (uniqueName p n)
    | _ => none)

/-! ### Basic lemmas on the dictionary and set models -/

lemma upd_same {α : Type} (d : String → Option α) (k : String) (v : α) :
    upd d k v k = some v := by
  simp [upd]

lemma upd_ne {α : Type} (d : String → Option α) (k : String) (v : α)
    {x : String} (h : x ≠ k) : upd d k v x = d x := by
  simp [upd, h]

lemma upd_isSome {α : Type} (d : String → Option α) (k : String) (v : α)
    (x : String) : (upd d k v x).isSome ↔ (d x).isSome ∨ x = k := by
  by_cases h : x = k
  · subst h; simp [upd]
  · simp [upd, h]

lemma mem_pyInsert {xs : List String} {p x : String} :
    x ∈ pyInsert xs p ↔ x ∈ xs ∨ x = p := by
  unfold pyInsert
  by_cases h : p ∈ xs
  · simp only [if_pos h]
    constructor
    · exact Or.inl
    · rintro (hx | rfl)
      · exact hx
      · exact h
  · simp [if_neg h]

/-! ### Effects of `add_file` -/

lemma add_file_functions (g : DependencyGraph) (p : String) :
    (add_file g p).functions = g.functions := rfl

lemma add_file_function_dependencies (g : DependencyGraph) (p : String) :
    (add_file g p).function_dependencies = g.function_dependencies := rfl

lemma add_file_function_name_index (g : DependencyGraph) (p : String) :
    (add_file g p).function_name_index = g.function_name_index := rfl

lemma add_file_files_mem (g : DependencyGraph) (p x : String) :
    x ∈ (add_file g p).files ↔ x ∈ g.files ∨ x = p := by
  show x ∈ pyInsert g.files p ↔ _
  exact mem_pyInsert

lemma add_file_fileDeps_isSome (g : DependencyGraph) (p x : String) :
    ((add_file g p).file_dependencies x).isSome ↔
      (g.file_dependencies x).isSome ∨ x = p := by
  by_cases h : (g.file_dependencies p).isSome
  · simp only [add_file, h, if_true]
    constructor
    · exact Or.inl
    · rintro (hx | rfl)
      · exact hx
      · exact h
  · simp only [add_file, h, if_false, Bool.false_eq_true]
    exact upd_isSome g.file_dependencies p ∅ x

lemma add_file_fileEdgesOf (g : DependencyGraph) (p x : String) :
    fileEdgesOf (add_file g p) x = fileEdgesOf g x := by
  unfold fileEdgesOf
  by_cases h : (g.file_dependencies p).isSome
  · simp only [add_file, h, if_true]
  · simp only [add_file, h, if_false, Bool.false_eq_true]
    by_cases hx : x = p
    · subst hx
      rw [upd_same, Option.not_isSome_iff_eq_none.mp h]
      rfl
    · rw [upd_ne _ _ _ hx]

/-! ### Effects of `add_function` -/

lemma add_function_fst (g : DependencyGraph) (n p : String) :
    (add_function g n p).1 = uniqueName p n := rfl

lemma add_function_files (g : DependencyGraph) (n p : String) :
    ((add_function g n p).2).files = g.files := rfl

lemma add_function_file_dependencies (g : DependencyGraph) (n p : String) :
    ((add_function g n p).2).file_dependencies = g.file_dependencies := rfl

lemma add_function_functions_isSome (g : DependencyGraph) (n p x : String) :
    (((add_function g n p).2).functions x).isSome ↔
      (g.functions x).isSome ∨ x = uniqueName p n := by
  exact upd_isSome g.functions (uniqueName p n) p x

lemma add_function_fdeps_isSome (g : DependencyGraph) (n p k : String) :
    (((add_function g n p).2).function_dependencies k).isSome ↔
      (g.function_dependencies k).isSome ∨ k = uniqueName p n := by
  by_cases h : (g.function_dependencies (uniqueName p n)).isSome
  · simp only [add_function, h, if_true]
    constructor
    · exact Or.inl
    · rintro (hx | rfl)
      · exact hx
      · exact h
  · simp only [add_function, h, if_false, Bool.false_eq_true]
    exact upd_isSome g.function_dependencies (uniqueName p n) ∅ k

lemma add_function_edgesOf (g : DependencyGraph) (n p k : String) :
    edgesOf ((add_function g n p).2) k = edgesOf g k := by
  unfold edgesOf
  by_cases h : (g.function_dependencies (uniqueName p n)).isSome
  · simp only [add_function, h, if_true]
  · simp only [add_function, h, if_false, Bool.false_eq_true]
    by_cases hk : k = uniqueName p n
    · subst hk
      rw [upd_same, Option.not_isSome_iff_eq_none.mp h]
      rfl
    · rw [upd_ne _ _ _ hk]

lemma add_function_idxEntries (g : DependencyGraph) (n p m : String) :
    idxEntries ((add_function g n p).2) m =
      if m = n then idxEntries g n ++ [uniqueName p n] else idxEntries g m := by
  unfold idxEntries
  by_cases hm : m = n
  · subst hm
    simp only [add_function, if_true, upd_same, Option.getD_some]
  · simp only [add_function, hm, if_false]
    rw [upd_ne _ _ _ hm]

/-! ### Effects of the definition-collection fold and of phase 1 -/

lemma defsFoldl_files (p : String) (defs : List (String × List PyStmt))
    (g : DependencyGraph) :
    (defs.foldl (fun gp nb => (add_function gp nb.1 p).2) g).files = g.files := by
  induction defs generalizing g with
  | nil => rfl
  | cons nb rest ih => rw [List.foldl_cons, ih, add_function_files]

lemma defsFoldl_file_dependencies (p : String) (defs : List (String × List PyStmt))
    (g : DependencyGraph) :
    (defs.foldl (fun gp nb => (add_function gp nb.1 p).2) g).file_dependencies =
      g.file_dependencies := by
  induction defs generalizing g with
  | nil => rfl
  | cons nb rest ih => rw [List.foldl_cons, ih, add_function_file_dependencies]

lemma defsFoldl_edgesOf (p : String) (defs : List (String × List PyStmt))
    (g : DependencyGraph) (k : String) :
    edgesOf (defs.foldl (fun gp nb => (add_function gp nb.1 p).2) g) k =
      edgesOf g k := by
  induction defs generalizing g with
  | nil => rfl
  | cons nb rest ih => rw [List.foldl_cons, ih, add_function_edgesOf]

lemma defsFoldl_fdeps_isSome (p : String) (defs : List (String × List PyStmt))
    (g : DependencyGraph) (k : String) :
    ((defs.foldl (fun gp nb => (add_function gp nb.1 p).2) g).function_dependencies
        k).isSome ↔
      (g.function_dependencies k).isSome ∨
        k ∈ defs.map (fun nb => uniqueName p nb.1) := by
  induction defs generalizing g with
  | nil => simp
  | cons nb rest ih =>
    rw [List.foldl_cons, ih]
    rw [add_function_fdeps_isSome]
    simp only [List.map_cons, List.mem_cons]
    tauto

lemma defsFoldl_functions_isSome (p : String) (defs : List (String × List PyStmt))
    (g : DependencyGraph) (k : String) :
    ((defs.foldl (fun gp nb => (add_function gp nb.1 p).2) g).functions k).isSome ↔
      (g.functions k).isSome ∨ k ∈ defs.map (fun nb => uniqueName p nb.1) := by
  induction defs generalizing g with
  | nil => simp
  | cons nb rest ih =>
    rw [List.foldl_cons, ih]
    rw [add_function_functions_isSome]
    simp only [List.map_cons, List.mem_cons]
    tauto

lemma defsFoldl_idx_mem (p : String) (defs : List (String × List PyStmt))
    (g : DependencyGraph) (m x : String) :
    (x ∈ idxEntries (defs.foldl (fun gp nb => (add_function gp nb.1 p).2) g) m) ↔
      x ∈ idxEntries g m ∨ (x = uniqueName p m ∧ m ∈ defs.map Prod.fst) := by
  induction defs generalizing g with
  | nil => simp
  | cons nb rest ih =>
    rw [List.foldl_cons, ih]
    rw [add_function_idxEntries]
    by_cases hm : m = nb.1
    · rw [if_pos hm]
      subst hm
      simp only [List.map_cons, List.mem_cons, List.mem_append, List.mem_singleton]
      tauto
    · rw [if_neg hm]
      simp only [List.map_cons, List.mem_cons]
      have : ¬ m = nb.1 := hm
      tauto

lemma extract_definitions_files_mem (f : PyFile) (g : DependencyGraph) (x : String) :
    x ∈ (extract_definitions f g).files ↔ x ∈ g.files ∨ x = f.path := by
  unfold extract_definitions
  rw [defsFoldl_files, add_file_files_mem]

lemma extract_definitions_fileDeps_isSome (f : PyFile) (g : DependencyGraph)
    (x : String) :
    ((extract_definitions f g).file_dependencies x).isSome ↔
      (g.file_dependencies x).isSome ∨ x = f.path := by
  unfold extract_definitions
  rw [defsFoldl_file_dependencies, add_file_fileDeps_isSome]

lemma extract_definitions_fileEdgesOf (f : PyFile) (g : DependencyGraph)
    (q : String) :
    fileEdgesOf (extract_definitions f g) q = fileEdgesOf g q := by
  unfold extract_definitions
  show fileEdgesOf
      ((stmtsFuncDefs f.stmts).foldl (fun gp nb => (add_function gp nb.1 f.path).2)
        (add_file g f.path)) q = _
  unfold fileEdgesOf
  rw [defsFoldl_file_dependencies]
  exact add_file_fileEdgesOf g f.path q

lemma extract_definitions_edgesOf (f : PyFile) (g : DependencyGraph) (k : String) :
    edgesOf (extract_definitions f g) k = edgesOf g k := by
  unfold extract_definitions
  rw [defsFoldl_edgesOf]
  unfold edgesOf
  rw [add_file_function_dependencies]

lemma extract_definitions_fdeps_isSome (f : PyFile) (g : DependencyGraph)
    (k : String) :
    ((extract_definitions f g).function_dependencies k).isSome ↔
      (g.function_dependencies k).isSome ∨
        k ∈ (stmtsFuncDefs f.stmts).map (fun nb => uniqueName f.path nb.1) := by
  unfold extract_definitions
  rw [defsFoldl_fdeps_isSome, add_file_function_dependencies]

lemma extract_definitions_idx_mem (f : PyFile) (g : DependencyGraph) (m x : String) :
    (x ∈ idxEntries (extract_definitions f g) m) ↔
      x ∈ idxEntries g m ∨
        (x = uniqueName f.path m ∧ m ∈ (stmtsFuncDefs f.stmts).map Prod.fst) := by
  unfold extract_definitions
  rw [defsFoldl_idx_mem]
  unfold idxEntries
  rw [add_file_function_name_index]

lemma extract_definitions_functions_isSome (f : PyFile) (g : DependencyGraph)
    (k : String) :
    ((extract_definitions f g).functions k).isSome ↔
      (g.functions k).isSome ∨
        k ∈ (stmtsFuncDefs f.stmts).map (fun nb => uniqueName f.path nb.1) := by
  unfold extract_definitions
  rw [defsFoldl_functions_isSome, add_file_functions]

lemma runPhase1_files_mem (fs : List PyFile) (g : DependencyGraph) (x : String) :
    x ∈ (runPhase1 fs g).files ↔ x ∈ g.files ∨ ∃ f ∈ fs, f.path = x := by
  induction fs generalizing g with
  | nil => simp [runPhase1]
  | cons f rest ih =>
    show x ∈ (runPhase1 rest (extract_definitions f g)).files ↔ _
    rw [ih, extract_definitions_files_mem]
    simp only [List.mem_cons]
    constructor
    · rintro ((hx | hx) | ⟨f', hf', hp⟩)
      · exact Or.inl hx
      · exact Or.inr ⟨f, Or.inl rfl, hx.symm⟩
      · exact Or.inr ⟨f', Or.inr hf', hp⟩
    · rintro (hx | ⟨f', (rfl | hf'), hp⟩)
      · exact Or.inl (Or.inl hx)
      · exact Or.inl (Or.inr hp.symm)
      · exact Or.inr ⟨f', hf', hp⟩

lemma runPhase1_fileDeps_isSome (fs : List PyFile) (g : DependencyGraph)
    (x : String) :
    ((runPhase1 fs g).file_dependencies x).isSome ↔
      (g.file_dependencies x).isSome ∨ ∃ f ∈ fs, f.path = x := by
  induction fs generalizing g with
  | nil => simp [runPhase1]
  | cons f rest ih =>
    show ((runPhase1 rest (extract_definitions f g)).file_dependencies x).isSome ↔ _
    rw [ih, extract_definitions_fileDeps_isSome]
    simp only [List.mem_cons]
    constructor
    · rintro ((hx | hx) | ⟨f', hf', hp⟩)
      · exact Or.inl hx
      · exact Or.inr ⟨f, Or.inl rfl, hx.symm⟩
      · exact Or.inr ⟨f', Or.inr hf', hp⟩
    · rintro (hx | ⟨f', (rfl | hf'), hp⟩)
      · exact Or.inl (Or.inl hx)
      · exact Or.inl (Or.inr hp.symm)
      · exact Or.inr ⟨f', hf', hp⟩

lemma runPhase1_fileEdgesOf (fs : List PyFile) (g : DependencyGraph) (q : String) :
    fileEdgesOf (runPhase1 fs g) q = fileEdgesOf g q := by
  induction fs generalizing g with
  | nil => rfl
  | cons f rest ih =>
    show fileEdgesOf (runPhase1 rest (extract_definitions f g)) q = _
    rw [ih, extract_definitions_fileEdgesOf]

lemma runPhase1_edgesOf (fs : List PyFile) (g : DependencyGraph) (k : String) :
    edgesOf (runPhase1 fs g) k = edgesOf g k := by
  induction fs generalizing g with
  | nil => rfl
  | cons f rest ih =>
    show edgesOf (runPhase1 rest (extract_definitions f g)) k = _
    rw [ih, extract_definitions_edgesOf]

lemma runPhase1_fdeps_isSome (fs : List PyFile) (g : DependencyGraph) (k : String) :
    ((runPhase1 fs g).function_dependencies k).isSome ↔
      (g.function_dependencies k).isSome ∨
        ∃ f ∈ fs, k ∈ (stmtsFuncDefs f.stmts).map (fun nb => uniqueName f.path nb.1) := by
  induction fs generalizing g with
  | nil => simp [runPhase1]
  | cons f rest ih =>
    show ((runPhase1 rest (extract_definitions f g)).function_dependencies k).isSome ↔ _
    rw [ih, extract_definitions_fdeps_isSome]
    simp only [List.mem_cons]
    constructor
    · rintro ((hx | hx) | ⟨f', hf', hp⟩)
      · exact Or.inl hx
      · exact Or.inr ⟨f, Or.inl rfl, hx⟩
      · exact Or.inr ⟨f', Or.inr hf', hp⟩
    · rintro (hx | ⟨f', (rfl | hf'), hp⟩)
      · exact Or.inl (Or.inl hx)
      · exact Or.inl (Or.inr hp)
      · exact Or.inr ⟨f', hf', hp⟩

lemma runPhase1_idx_mem (fs : List PyFile) (g : DependencyGraph) (m x : String) :
    (x ∈ idxEntries (runPhase1 fs g) m) ↔
      x ∈ idxEntries g m ∨
        ∃ f ∈ fs, x = uniqueName f.path m ∧
          m ∈ (stmtsFuncDefs f.stmts).map Prod.fst := by
  induction fs generalizing g with
  | nil => simp [runPhase1]
  | cons f rest ih =>
    show (x ∈ idxEntries (runPhase1 rest (extract_definitions f g)) m) ↔ _
    rw [ih, extract_definitions_idx_mem]
    simp only [List.mem_cons]
    constructor
    · rintro ((hx | hx) | ⟨f', hf', hp⟩)
      · exact Or.inl hx
      · exact Or.inr ⟨f, Or.inl rfl, hx⟩
      · exact Or.inr ⟨f', Or.inr hf', hp⟩
    · rintro (hx | ⟨f', (rfl | hf'), hp⟩)
      · exact Or.inl (Or.inl hx)
      · exact Or.inl (Or.inr hp)
      · exact Or.inr ⟨f', hf', hp⟩

/-! ### Effects of `add_function_dependency` -/

lemma afdFold_spec (u : String) (ms : List String) :
    ∀ (g gr : DependencyGraph),
      ms.foldlM (fun gp m =>
        match gp.function_dependencies u with
        | some s =>
            some { gp with
              function_dependencies := upd gp.function_dependencies u (insert m s) }
        | none => none) g = some gr →
      (gr.files = g.files ∧ gr.functions = g.functions ∧
       gr.function_name_index = g.function_name_index ∧
       gr.file_dependencies = g.file_dependencies ∧
       (∀ k, (gr.function_dependencies k).isSome ↔ (g.function_dependencies k).isSome)) ∧
      (∀ k x, x ∈ edgesOf gr k ↔
        x ∈ edgesOf g k ∨ (k = u ∧ x ∈ ms ∧ (g.function_dependencies u).isSome)) := by
  induction ms with
  | nil =>
    intro g gr h
    simp only [List.foldlM_nil] at h
    cases h
    refine ⟨⟨rfl, rfl, rfl, rfl, fun k => Iff.rfl⟩, fun k x => ?_⟩
    simp
  | cons m rest ih =>
    intro g gr h
    rw [List.foldlM_cons] at h
    cases hfd : g.function_dependencies u with
    | none =>
      rw [hfd] at h
      simp at h
    | some s =>
      rw [hfd] at h
      simp only [Option.bind_eq_bind, Option.some_bind] at h
      obtain ⟨⟨hfl, hfn, hidx, hfdep, hdom⟩, hedges⟩ := ih _ gr h
      constructor
      · refine ⟨hfl, hfn, hidx, hfdep, fun k => ?_⟩
        rw [hdom k]
        by_cases hk : k = u
        · subst hk
          simp [upd_same, hfd]
        · simp [upd_ne _ _ _ hk]
      · intro k x
        rw [hedges k x]
        by_cases hk : k = u
        · have hg1 : edgesOf { g with
                function_dependencies := upd g.function_dependencies u (insert m s) } u =
              insert m s := by
            unfold edgesOf
            simp [upd_same]
          have hg0 : edgesOf g u = s := by
            unfold edgesOf
            rw [hfd]
            rfl
          have hdom1 : ((upd g.function_dependencies u (insert m s)) u).isSome := by
            rw [upd_same]
            rfl
          simp only [hk, hg1, hg0, Finset.mem_insert, List.mem_cons, hfd,
            Option.isSome_some, hdom1, and_true, true_and]
          tauto
        · have hg1 : edgesOf { g with
                function_dependencies := upd g.function_dependencies u (insert m s) } k =
              edgesOf g k := by
            unfold edgesOf
            simp [upd_ne _ _ _ hk]
          simp only [hg1, hk, false_and, or_false]

lemma add_function_dependency_spec (g gr : DependencyGraph) (u t : String)
    (h : add_function_dependency g u t = some gr) :
    (gr.files = g.files ∧ gr.functions = g.functions ∧
     gr.function_name_index = g.function_name_index ∧
     gr.file_dependencies = g.file_dependencies ∧
     (∀ k, (gr.function_dependencies k).isSome ↔ (g.function_dependencies k).isSome)) ∧
    (∀ k x, x ∈ edgesOf gr k ↔
      x ∈ edgesOf g k ∨
        (k = u ∧ x ∈ idxEntries g t ∧ (g.function_dependencies u).isSome)) := by
  unfold add_function_dependency at h
  cases hidx : g.function_name_index t with
  | none =>
    rw [hidx] at h
    cases h
    refine ⟨⟨rfl, rfl, rfl, rfl, fun k => Iff.rfl⟩, fun k x => ?_⟩
    have : idxEntries g t = [] := by
      unfold idxEntries
      rw [hidx]
      rfl
    simp [this]
  | some ms =>
    rw [hidx] at h
    have hms : idxEntries g t = ms := by
      unfold idxEntries
      rw [hidx]
      rfl
    obtain ⟨hframe, hedges⟩ := afdFold_spec u ms g gr h
    refine ⟨hframe, ?_⟩
    rw [hms]
    exact hedges

lemma afdFold_isSome (u : String) (ms : List String) :
    ∀ (g : DependencyGraph), (g.function_dependencies u).isSome →
      (ms.foldlM (fun (gp : DependencyGraph) m =>
        match gp.function_dependencies u with
        | some s =>
            some { gp with
              function_dependencies := upd gp.function_dependencies u (insert m s) }
        | none => none) g).isSome := by
  induction ms with
  | nil =>
    intro g _
    simp
  | cons m rest ih =>
    intro g hdom
    rw [List.foldlM_cons]
    cases hfd : g.function_dependencies u with
    | none => rw [hfd] at hdom; cases hdom
    | some s =>
      simp only [Option.bind_eq_bind, Option.some_bind]
      refine ih _ ?_
      simp [upd_same]

lemma add_function_dependency_isSome (g : DependencyGraph) (u t : String)
    (hdom : (g.function_dependencies u).isSome) :
    (add_function_dependency g u t).isSome := by
  unfold add_function_dependency
  cases hidx : g.function_name_index t with
  | none => rfl
  | some ms => exact afdFold_isSome u ms g hdom

lemma add_function_dependency_keyError (g : DependencyGraph) (u t : String)
    (hnone : g.function_dependencies u = none)
    (m : String) (rest : List String)
    (hidx : g.function_name_index t = some (m :: rest)) :
    add_function_dependency g u t = none := by
  unfold add_function_dependency
  simp only [hidx, List.foldlM_cons, hnone]
  rfl

/-! ### Effects of `add_file_dependency` -/

lemma add_file_dependency_noop (g : DependencyGraph) (s t : String)
    (h : ¬(s ∈ g.files ∧ t ∈ g.files)) :
    add_file_dependency g s t = some g := by
  unfold add_file_dependency
  rw [if_neg h]

lemma add_file_dependency_isSome (g : DependencyGraph) (s t : String)
    (hdom : s ∈ g.files → (g.file_dependencies s).isSome) :
    (add_file_dependency g s t).isSome := by
  unfold add_file_dependency
  by_cases hc : s ∈ g.files ∧ t ∈ g.files
  · rw [if_pos hc]
    cases hfd : g.file_dependencies s with
    | none =>
      rw [hfd] at hdom
      cases hdom hc.1
    | some st => rfl
  · rw [if_neg hc]
    rfl

lemma add_file_dependency_spec (g gr : DependencyGraph) (s t : String)
    (h : add_file_dependency g s t = some gr) :
    (gr.files = g.files ∧ gr.functions = g.functions ∧
     gr.function_name_index = g.function_name_index ∧
     gr.function_dependencies = g.function_dependencies ∧
     (∀ p, (gr.file_dependencies p).isSome ↔ (g.file_dependencies p).isSome)) ∧
    (∀ p q, q ∈ fileEdgesOf gr p ↔
      q ∈ fileEdgesOf g p ∨ (p = s ∧ q = t ∧ s ∈ g.files ∧ t ∈ g.files)) := by
  unfold add_file_dependency at h
  by_cases hc : s ∈ g.files ∧ t ∈ g.files
  · rw [if_pos hc] at h
    cases hfd : g.file_dependencies s with
    | none =>
      rw [hfd] at h
      simp at h
    | some st =>
      rw [hfd] at h
      cases h
      constructor
      · refine ⟨rfl, rfl, rfl, rfl, fun p => ?_⟩
        show ((upd g.file_dependencies s (insert t st)) p).isSome ↔ _
        by_cases hp : p = s
        · subst hp
          rw [upd_same, hfd]
          simp
        · rw [upd_ne _ _ _ hp]
      · intro p q
        show q ∈ (((upd g.file_dependencies s (insert t st))) p).getD ∅ ↔ _
        by_cases hp : p = s
        · subst hp
          rw [upd_same]
          have hg0 : fileEdgesOf g p = st := by
            unfold fileEdgesOf
            rw [hfd]
            rfl
          rw [hg0]
          simp only [Option.getD_some, Finset.mem_insert]
          tauto
        · rw [upd_ne _ _ _ hp]
          simp only [hp, false_and, or_false]
          exact Iff.rfl
  · rw [if_neg hc] at h
    cases h
    refine ⟨⟨rfl, rfl, rfl, rfl, fun p => Iff.rfl⟩, fun p q => ?_⟩
    constructor
    · exact Or.inl
    · rintro (hq | ⟨rfl, rfl, hmem⟩)
      · exact hq
      · exact absurd hmem hc

/-! ### Effects of `resolve_imports` -/

lemma importInnerFold_spec (fp suf ini : String) (fs : List String) :
    ∀ (g gr : DependencyGraph),
      fs.foldlM (fun (g1 : DependencyGraph) other_file =>
        if (pyEndsWith other_file suf ∨ pyEndsWith other_file ini)
            ∧ other_file ≠ fp then
          add_file_dependency g1 fp other_file
        else
          some g1) g = some gr →
      (gr.files = g.files ∧ gr.functions = g.functions ∧
       gr.function_name_index = g.function_name_index ∧
       gr.function_dependencies = g.function_dependencies ∧
       (∀ p, (gr.file_dependencies p).isSome ↔ (g.file_dependencies p).isSome)) ∧
      (∀ p q, q ∈ fileEdgesOf gr p ↔
        q ∈ fileEdgesOf g p ∨
          (p = fp ∧ q ∈ fs ∧
            ((pyEndsWith q suf ∨ pyEndsWith q ini) ∧ q ≠ fp) ∧
            fp ∈ g.files ∧ q ∈ g.files)) := by
  induction fs with
  | nil =>
    intro g gr h
    simp only [List.foldlM_nil] at h
    cases h
    refine ⟨⟨rfl, rfl, rfl, rfl, fun p => Iff.rfl⟩, fun p q => ?_⟩
    simp
  | cons a fs ih =>
    intro g gr h
    rw [List.foldlM_cons] at h
    by_cases hca : (pyEndsWith a suf ∨ pyEndsWith a ini) ∧ a ≠ fp
    · rw [if_pos hca] at h
      simp only [Option.bind_eq_bind] at h
      obtain ⟨g1, haffd, hrest⟩ := Option.bind_eq_some.mp h
      obtain ⟨⟨hfl1, hfn1, hidx1, hfdp1, hdom1⟩, hedges1⟩ :=
        add_file_dependency_spec g g1 fp a haffd
      obtain ⟨⟨hfl2, hfn2, hidx2, hfdp2, hdom2⟩, hedges2⟩ := ih g1 gr hrest
      constructor
      · exact ⟨hfl2.trans hfl1, hfn2.trans hfn1, hidx2.trans hidx1,
          hfdp2.trans hfdp1, fun p => (hdom2 p).trans (hdom1 p)⟩
      · intro p q
        rw [hedges2 p q, hedges1 p q, hfl1]
        constructor
        · rintro ((hq | ⟨rfl, rfl, hfpm, ham⟩) | ⟨rfl, hqfs, hcond, hfpm, hqm⟩)
          · exact Or.inl hq
          · exact Or.inr ⟨rfl, List.mem_cons_self _ _, hca, hfpm, ham⟩
          · exact Or.inr ⟨rfl, List.mem_cons_of_mem _ hqfs, hcond, hfpm, hqm⟩
        · rintro (hq | ⟨rfl, hqfs, hcond, hfpm, hqm⟩)
          · exact Or.inl (Or.inl hq)
          · rcases List.mem_cons.mp hqfs with rfl | hqfs
            · exact Or.inl (Or.inr ⟨rfl, rfl, hfpm, hqm⟩)
            · exact Or.inr ⟨rfl, hqfs, hcond, hfpm, hqm⟩
    · rw [if_neg hca] at h
      simp only [Option.bind_eq_bind, Option.some_bind] at h
      obtain ⟨hframe, hedges⟩ := ih g gr h
      refine ⟨hframe, fun p q => ?_⟩
      rw [hedges p q]
      constructor
      · rintro (hq | ⟨rfl, hqfs, hcond, hfpm, hqm⟩)
        · exact Or.inl hq
        · exact Or.inr ⟨rfl, List.mem_cons_of_mem _ hqfs, hcond, hfpm, hqm⟩
      · rintro (hq | ⟨rfl, hqfs, hcond, hfpm, hqm⟩)
        · exact Or.inl hq
        · rcases List.mem_cons.mp hqfs with rfl | hqfs
          · exact absurd hcond hca
          · exact Or.inr ⟨rfl, hqfs, hcond, hfpm, hqm⟩

lemma importInnerFold_isSome (fp suf ini : String) (fs : List String) :
    ∀ (g : DependencyGraph),
      (∀ p ∈ g.files, (g.file_dependencies p).isSome) →
      (fs.foldlM (fun (g1 : DependencyGraph) other_file =>
        if (pyEndsWith other_file suf ∨ pyEndsWith other_file ini)
            ∧ other_file ≠ fp then
          add_file_dependency g1 fp other_file
        else
          some g1) g).isSome := by
  induction fs with
  | nil =>
    intro g _
    simp
  | cons a fs ih =>
    intro g hwf
    rw [List.foldlM_cons]
    by_cases hca : (pyEndsWith a suf ∨ pyEndsWith a ini) ∧ a ≠ fp
    · rw [if_pos hca]
      have haffd : (add_file_dependency g fp a).isSome :=
        add_file_dependency_isSome g fp a (fun hm => hwf fp hm)
      obtain ⟨g1, hg1⟩ := Option.isSome_iff_exists.mp haffd
      rw [hg1]
      simp only [Option.bind_eq_bind, Option.some_bind]
      obtain ⟨⟨hfl1, _, _, _, hdom1⟩, _⟩ := add_file_dependency_spec g g1 fp a hg1
      refine ih g1 ?_
      intro p hp
      rw [hfl1] at hp
      rw [hdom1 p]
      exact hwf p hp
    · rw [if_neg hca]
      simp only [Option.bind_eq_bind, Option.some_bind]
      exact ih g hwf

lemma resolve_imports_spec (fp : String) (mods : List String) :
    ∀ (g gr : DependencyGraph), resolve_imports fp mods g = some gr →
      (gr.files = g.files ∧ gr.functions = g.functions ∧
       gr.function_name_index = g.function_name_index ∧
       gr.function_dependencies = g.function_dependencies ∧
       (∀ p, (gr.file_dependencies p).isSome ↔ (g.file_dependencies p).isSome)) ∧
      (∀ p q, q ∈ fileEdgesOf gr p ↔
        q ∈ fileEdgesOf g p ∨
          (p = fp ∧ fp ∈ g.files ∧ q ∈ g.files ∧ q ≠ fp ∧
            ∃ m ∈ mods, (pyEndsWith q (pyReplaceDots m ++ ".py") ∨
              pyEndsWith q (pyReplaceDots m ++ "/__init__.py")))) := by
  induction mods with
  | nil =>
    intro g gr h
    unfold resolve_imports at h
    simp only [List.foldlM_nil] at h
    cases h
    refine ⟨⟨rfl, rfl, rfl, rfl, fun p => Iff.rfl⟩, fun p q => ?_⟩
    simp
  | cons m mods ih =>
    intro g gr h
    unfold resolve_imports at h
    rw [List.foldlM_cons] at h
    simp only [Option.bind_eq_bind] at h
    obtain ⟨g1, h1, h2⟩ := Option.bind_eq_some.mp h
    obtain ⟨⟨hfl1, hfn1, hidx1, hfdp1, hdom1⟩, hedges1⟩ :=
      importInnerFold_spec fp (pyReplaceDots m ++ ".py")
        (pyReplaceDots m ++ "/__init__.py") g.files g g1 h1
    have h2a : resolve_imports fp mods g1 = some gr := h2
    obtain ⟨⟨hfl2, hfn2, hidx2, hfdp2, hdom2⟩, hedges2⟩ := ih g1 gr h2a
    constructor
    · exact ⟨hfl2.trans hfl1, hfn2.trans hfn1, hidx2.trans hidx1,
        hfdp2.trans hfdp1, fun p => (hdom2 p).trans (hdom1 p)⟩
    · intro p q
      rw [hedges2 p q, hedges1 p q, hfl1]
      constructor
      · rintro ((hq | ⟨rfl, hqfs, ⟨hcond, hqne⟩, hfpm, hqm⟩) |
          ⟨rfl, hfpm, hqm, hqne, m', hm', hcond⟩)
        · exact Or.inl hq
        · exact Or.inr ⟨rfl, hfpm, hqm, hqne, m, List.mem_cons_self _ _, hcond⟩
        · exact Or.inr ⟨rfl, hfpm, hqm, hqne, m', List.mem_cons_of_mem _ hm', hcond⟩
      · rintro (hq | ⟨rfl, hfpm, hqm, hqne, m', hm', hcond⟩)
        · exact Or.inl (Or.inl hq)
        · rcases List.mem_cons.mp hm' with rfl | hm'
          · exact Or.inl (Or.inr ⟨rfl, hqm, ⟨hcond, hqne⟩, hfpm, hqm⟩)
          · exact Or.inr ⟨rfl, hfpm, hqm, hqne, m', hm', hcond⟩

lemma resolve_imports_isSome (fp : String) (mods : List String) :
    ∀ (g : DependencyGraph),
      (∀ p ∈ g.files, (g.file_dependencies p).isSome) →
      (resolve_imports fp mods g).isSome := by
  induction mods with
  | nil =>
    intro g _
    unfold resolve_imports
    simp
  | cons m mods ih =>
    intro g hwf
    have hinner := importInnerFold_isSome fp (pyReplaceDots m ++ ".py")
      (pyReplaceDots m ++ "/__init__.py") g.files g hwf
    obtain ⟨g1, hg1⟩ := Option.isSome_iff_exists.mp hinner
    obtain ⟨⟨hfl1, _, _, _, hdom1⟩, _⟩ :=
      importInnerFold_spec fp (pyReplaceDots m ++ ".py")
        (pyReplaceDots m ++ "/__init__.py") g.files g g1 hg1
    have hwf1 : ∀ p ∈ g1.files, (g1.file_dependencies p).isSome := by
      intro p hp
      rw [hfl1] at hp
      rw [hdom1 p]
      exact hwf p hp
    cases hres : resolve_imports fp (m :: mods) g with
    | some gr => rfl
    | none =>
      exfalso
      unfold resolve_imports at hres
      rw [List.foldlM_cons] at hres
      simp only [Option.bind_eq_bind] at hres
      rw [Option.bind_eq_none] at hres
      have hnone : resolve_imports fp mods g1 = none := hres g1 hg1
      have hpos := ih g1 hwf1
      rw [hnone] at hpos
      cases hpos

/-! ### Effects of `resolve_calls` -/

lemma callsInnerFold_spec (u : String) (calls : List String) :
    ∀ (g gr : DependencyGraph),
      calls.foldlM (fun (g1 : DependencyGraph) target_call =>
        add_function_dependency g1 u target_call) g = some gr →
      (gr.files = g.files ∧ gr.functions = g.functions ∧
       gr.function_name_index = g.function_name_index ∧
       gr.file_dependencies = g.file_dependencies ∧
       (∀ k, (gr.function_dependencies k).isSome ↔ (g.function_dependencies k).isSome)) ∧
      (∀ k x, x ∈ edgesOf gr k ↔
        x ∈ edgesOf g k ∨
          (k = u ∧ (g.function_dependencies u).isSome ∧
            ∃ t ∈ calls, x ∈ idxEntries g t)) := by
  induction calls with
  | nil =>
    intro g gr h
    simp only [List.foldlM_nil] at h
    cases h
    refine ⟨⟨rfl, rfl, rfl, rfl, fun k => Iff.rfl⟩, fun k x => ?_⟩
    simp
  | cons t ts ih =>
    intro g gr h
    rw [List.foldlM_cons] at h
    simp only [Option.bind_eq_bind] at h
    obtain ⟨g1, h1, h2⟩ := Option.bind_eq_some.mp h
    obtain ⟨⟨hfl1, hfn1, hidx1, hfdp1, hdom1⟩, hedges1⟩ :=
      add_function_dependency_spec g g1 u t h1
    obtain ⟨⟨hfl2, hfn2, hidx2, hfdp2, hdom2⟩, hedges2⟩ := ih g1 gr h2
    constructor
    · exact ⟨hfl2.trans hfl1, hfn2.trans hfn1, hidx2.trans hidx1,
        hfdp2.trans hfdp1, fun k => (hdom2 k).trans (hdom1 k)⟩
    · intro k x
      have hidxE : ∀ n, idxEntries g1 n = idxEntries g n := by
        intro n
        unfold idxEntries
        rw [hidx1]
      rw [hedges2 k x, hedges1 k x]
      constructor
      · rintro ((hx | ⟨rfl, hmem, hdom⟩) | ⟨rfl, hdomg1, t', ht', hx⟩)
        · exact Or.inl hx
        · exact Or.inr ⟨rfl, hdom, t, List.mem_cons_self _ _, hmem⟩
        · exact Or.inr ⟨rfl, (hdom1 _).mp hdomg1, t',
            List.mem_cons_of_mem _ ht', (hidxE t') ▸ hx⟩
      · rintro (hx | ⟨rfl, hdom, t', ht', hx⟩)
        · exact Or.inl (Or.inl hx)
        · rcases List.mem_cons.mp ht' with rfl | ht'
          · exact Or.inl (Or.inr ⟨rfl, hx, hdom⟩)
          · exact Or.inr ⟨rfl, (hdom1 _).mpr hdom, t', ht', (hidxE t').symm ▸ hx⟩

lemma callsInnerFold_isSome (u : String) (calls : List String) :
    ∀ (g : DependencyGraph), (g.function_dependencies u).isSome →
      (calls.foldlM (fun (g1 : DependencyGraph) target_call =>
        add_function_dependency g1 u target_call) g).isSome := by
  induction calls with
  | nil =>
    intro g _
    simp
  | cons t ts ih =>
    intro g hdom
    obtain ⟨g1, hg1⟩ := Option.isSome_iff_exists.mp
      (add_function_dependency_isSome g u t hdom)
    simp only [List.foldlM_cons, Option.bind_eq_bind]
    rw [hg1]
    simp only [Option.some_bind]
    obtain ⟨⟨_, _, _, _, hdom1⟩, _⟩ := add_function_dependency_spec g g1 u t hg1
    exact ih g1 ((hdom1 u).mpr hdom)

lemma resolve_calls_spec (fp : String) (defs : List (String × List PyStmt)) :
    ∀ (g gr : DependencyGraph), resolve_calls fp defs g = some gr →
      (gr.files = g.files ∧ gr.functions = g.functions ∧
       gr.function_name_index = g.function_name_index ∧
       gr.file_dependencies = g.file_dependencies ∧
       (∀ k, (gr.function_dependencies k).isSome ↔ (g.function_dependencies k).isSome)) ∧
      (∀ k x, x ∈ edgesOf gr k ↔
        x ∈ edgesOf g k ∨
          ∃ nb ∈ defs, uniqueName fp nb.1 = k ∧
            (g.function_dependencies k).isSome ∧
            ∃ t ∈ bodyCalls nb.2, x ∈ idxEntries g t) := by
  induction defs with
  | nil =>
    intro g gr h
    unfold resolve_calls at h
    simp only [List.foldlM_nil] at h
    cases h
    refine ⟨⟨rfl, rfl, rfl, rfl, fun k => Iff.rfl⟩, fun k x => ?_⟩
    simp
  | cons nb defs ih =>
    intro g gr h
    unfold resolve_calls at h
    rw [List.foldlM_cons] at h
    simp only [Option.bind_eq_bind] at h
    obtain ⟨g1, h1, h2⟩ := Option.bind_eq_some.mp h
    obtain ⟨⟨hfl1, hfn1, hidx1, hfdp1, hdom1⟩, hedges1⟩ :=
      callsInnerFold_spec (uniqueName fp nb.1) (bodyCalls nb.2) g g1 h1
    have h2a : resolve_calls fp defs g1 = some gr := h2
    obtain ⟨⟨hfl2, hfn2, hidx2, hfdp2, hdom2⟩, hedges2⟩ := ih g1 gr h2a
    constructor
    · exact ⟨hfl2.trans hfl1, hfn2.trans hfn1, hidx2.trans hidx1,
        hfdp2.trans hfdp1, fun k => (hdom2 k).trans (hdom1 k)⟩
    · intro k x
      have hidxE : ∀ n, idxEntries g1 n = idxEntries g n := by
        intro n
        unfold idxEntries
        rw [hidx1]
      rw [hedges2 k x, hedges1 k x]
      constructor
      · rintro ((hx | ⟨rfl, hdom, t, ht, hx⟩) | ⟨nb', hnb', hk, hdom, t, ht, hx⟩)
        · exact Or.inl hx
        · exact Or.inr ⟨nb, List.mem_cons_self _ _, rfl, hdom, t, ht, hx⟩
        · exact Or.inr ⟨nb', List.mem_cons_of_mem _ hnb', hk,
            (hdom1 k).mp hdom, t, ht, (hidxE t) ▸ hx⟩
      · rintro (hx | ⟨nb', hnb', hk, hdom, t, ht, hx⟩)
        · exact Or.inl (Or.inl hx)
        · rcases List.mem_cons.mp hnb' with rfl | hnb'
          · exact Or.inl (Or.inr ⟨hk.symm, hk.symm ▸ hdom, t, ht, hx⟩)
          · exact Or.inr ⟨nb', hnb', hk, (hdom1 k).mpr hdom, t, ht,
              (hidxE t).symm ▸ hx⟩

lemma resolve_calls_isSome (fp : String) (defs : List (String × List PyStmt)) :
    ∀ (g : DependencyGraph),
      (∀ nb ∈ defs, (g.function_dependencies (uniqueName fp nb.1)).isSome) →
      (resolve_calls fp defs g).isSome := by
  induction defs with
  | nil =>
    intro g _
    unfold resolve_calls
    simp
  | cons nb defs ih =>
    intro g hwf
    have hinner := callsInnerFold_isSome (uniqueName fp nb.1) (bodyCalls nb.2) g
      (hwf nb (List.mem_cons_self _ _))
    obtain ⟨g1, hg1⟩ := Option.isSome_iff_exists.mp hinner
    obtain ⟨⟨_, _, _, _, hdom1⟩, _⟩ :=
      callsInnerFold_spec (uniqueName fp nb.1) (bodyCalls nb.2) g g1 hg1
    have hwf1 : ∀ nb' ∈ defs, (g1.function_dependencies (uniqueName fp nb'.1)).isSome := by
      intro nb' hnb'
      rw [hdom1 (uniqueName fp nb'.1)]
      exact hwf nb' (List.mem_cons_of_mem _ hnb')
    cases hres : resolve_calls fp (nb :: defs) g with
    | some gr => rfl
    | none =>
      exfalso
      unfold resolve_calls at hres
      rw [List.foldlM_cons] at hres
      simp only [Option.bind_eq_bind] at hres
      rw [Option.bind_eq_none] at hres
      have hnone : resolve_calls fp defs g1 = none := hres g1 hg1
      have hpos := ih g1 hwf1
      rw [hnone] at hpos
      cases hpos

/-! ### Effects of `resolve_dependencies` and of phase 2 -/

lemma resolve_dependencies_spec (f : PyFile) (g gr : DependencyGraph)
    (h : resolve_dependencies f g = some gr) :
    (gr.files = g.files ∧ gr.functions = g.functions ∧
     gr.function_name_index = g.function_name_index ∧
     (∀ k, (gr.function_dependencies k).isSome ↔ (g.function_dependencies k).isSome) ∧
     (∀ p, (gr.file_dependencies p).isSome ↔ (g.file_dependencies p).isSome)) ∧
    (∀ p q, q ∈ fileEdgesOf gr p ↔
      q ∈ fileEdgesOf g p ∨
        (p = f.path ∧ f.path ∈ g.files ∧ q ∈ g.files ∧ q ≠ f.path ∧
          ∃ m ∈ stmtsImportMods f.stmts,
            (pyEndsWith q (pyReplaceDots m ++ ".py") ∨
             pyEndsWith q (pyReplaceDots m ++ "/__init__.py")))) ∧
    (∀ k x, x ∈ edgesOf gr k ↔
      x ∈ edgesOf g k ∨
        ∃ nb ∈ stmtsFuncDefs f.stmts, uniqueName f.path nb.1 = k ∧
          (g.function_dependencies k).isSome ∧
          ∃ t ∈ bodyCalls nb.2, x ∈ idxEntries g t) := by
  unfold resolve_dependencies at h
  obtain ⟨g1, h1, h2⟩ := Option.bind_eq_some.mp h
  obtain ⟨⟨hfl1, hfn1, hidx1, hfdp1, hdom1⟩, hfe1⟩ :=
    resolve_imports_spec f.path (stmtsImportMods f.stmts) g g1 h1
  obtain ⟨⟨hfl2, hfn2, hidx2, hfdp2, hdom2⟩, hce2⟩ :=
    resolve_calls_spec f.path (stmtsFuncDefs f.stmts) g1 gr h2
  refine ⟨⟨hfl2.trans hfl1, hfn2.trans hfn1, hidx2.trans hidx1, ?_, ?_⟩, ?_, ?_⟩
  · intro k
    rw [hdom2 k, hfdp1]
  · intro p
    rw [hfdp2, hdom1 p]
  · intro p q
    have hfe2 : fileEdgesOf gr p = fileEdgesOf g1 p := by
      unfold fileEdgesOf
      rw [hfdp2]
    rw [hfe2, hfe1 p q]
  · intro k x
    have hed1 : ∀ j, edgesOf g1 j = edgesOf g j := by
      intro j
      unfold edgesOf
      rw [hfdp1]
    have hidxE : ∀ n, idxEntries g1 n = idxEntries g n := by
      intro n
      unfold idxEntries
      rw [hidx1]
    rw [hce2 k x, hed1 k]
    constructor
    · rintro (hx | ⟨nb, hnb, hk, hdom, t, ht, hx⟩)
      · exact Or.inl hx
      · refine Or.inr ⟨nb, hnb, hk, ?_, t, ht, (hidxE t) ▸ hx⟩
        rw [hfdp1] at hdom
        exact hdom
    · rintro (hx | ⟨nb, hnb, hk, hdom, t, ht, hx⟩)
      · exact Or.inl hx
      · refine Or.inr ⟨nb, hnb, hk, ?_, t, ht, (hidxE t).symm ▸ hx⟩
        rw [hfdp1]
        exact hdom

lemma resolve_dependencies_isSome (f : PyFile) (g : DependencyGraph)
    (hwfF : ∀ p ∈ g.files, (g.file_dependencies p).isSome)
    (hwfD : ∀ nb ∈ stmtsFuncDefs f.stmts,
      (g.function_dependencies (uniqueName f.path nb.1)).isSome) :
    (resolve_dependencies f g).isSome := by
  obtain ⟨g1, hg1⟩ := Option.isSome_iff_exists.mp
    (resolve_imports_isSome f.path (stmtsImportMods f.stmts) g hwfF)
  obtain ⟨⟨hfl1, hfn1, hidx1, hfdp1, hdom1⟩, hfe1⟩ :=
    resolve_imports_spec f.path (stmtsImportMods f.stmts) g g1 hg1
  unfold resolve_dependencies
  rw [hg1]
  simp only [Option.some_bind]
  refine resolve_calls_isSome f.path (stmtsFuncDefs f.stmts) g1 ?_
  intro nb hnb
  rw [hfdp1]
  exact hwfD nb hnb

lemma runPhase2_spec (fs : List PyFile) :
    ∀ (g gr : DependencyGraph), runPhase2 fs g = some gr →
      (gr.files = g.files ∧ gr.functions = g.functions ∧
       gr.function_name_index = g.function_name_index ∧
       (∀ k, (gr.function_dependencies k).isSome ↔ (g.function_dependencies k).isSome) ∧
       (∀ p, (gr.file_dependencies p).isSome ↔ (g.file_dependencies p).isSome)) ∧
      (∀ p q, q ∈ fileEdgesOf gr p ↔
        q ∈ fileEdgesOf g p ∨
          ∃ f ∈ fs, p = f.path ∧ f.path ∈ g.files ∧ q ∈ g.files ∧ q ≠ f.path ∧
            ∃ m ∈ stmtsImportMods f.stmts,
              (pyEndsWith q (pyReplaceDots m ++ ".py") ∨
               pyEndsWith q (pyReplaceDots m ++ "/__init__.py"))) ∧
      (∀ k x, x ∈ edgesOf gr k ↔
        x ∈ edgesOf g k ∨
          ∃ f ∈ fs, ∃ nb ∈ stmtsFuncDefs f.stmts, uniqueName f.path nb.1 = k ∧
            (g.function_dependencies k).isSome ∧
            ∃ t ∈ bodyCalls nb.2, x ∈ idxEntries g t) := by
  induction fs with
  | nil =>
    intro g gr h
    unfold runPhase2 at h
    simp only [List.foldlM_nil] at h
    cases h
    refine ⟨⟨rfl, rfl, rfl, fun k => Iff.rfl, fun p => Iff.rfl⟩,
      fun p q => ?_, fun k x => ?_⟩
    · simp
    · simp
  | cons f fs ih =>
    intro g gr h
    unfold runPhase2 at h
    rw [List.foldlM_cons] at h
    simp only [Option.bind_eq_bind] at h
    obtain ⟨g1, h1, h2⟩ := Option.bind_eq_some.mp h
    obtain ⟨⟨hfl1, hfn1, hidx1, hdomF1, hdomP1⟩, hfe1, hce1⟩ :=
      resolve_dependencies_spec f g g1 h1
    have h2a : runPhase2 fs g1 = some gr := h2
    obtain ⟨⟨hfl2, hfn2, hidx2, hdomF2, hdomP2⟩, hfe2, hce2⟩ := ih g1 gr h2a
    have hidxE : ∀ n, idxEntries g1 n = idxEntries g n := by
      intro n
      unfold idxEntries
      rw [hidx1]
    refine ⟨⟨hfl2.trans hfl1, hfn2.trans hfn1, hidx2.trans hidx1,
      fun k => (hdomF2 k).trans (hdomF1 k),
      fun p => (hdomP2 p).trans (hdomP1 p)⟩, ?_, ?_⟩
    · intro p q
      rw [hfe2 p q, hfe1 p q, hfl1]
      constructor
      · rintro ((hq | hA) | ⟨f', hf', hrest⟩)
        · exact Or.inl hq
        · exact Or.inr ⟨f, List.mem_cons_self _ _, hA⟩
        · exact Or.inr ⟨f', List.mem_cons_of_mem _ hf', hrest⟩
      · rintro (hq | ⟨f', hf', hrest⟩)
        · exact Or.inl (Or.inl hq)
        · rcases List.mem_cons.mp hf' with rfl | hf'
          · exact Or.inl (Or.inr hrest)
          · exact Or.inr ⟨f', hf', hrest⟩
    · intro k x
      rw [hce2 k x, hce1 k x]
      constructor
      · rintro ((hx | hA) | ⟨f', hf', nb, hnb, hk, hdom, t, ht, hx⟩)
        · exact Or.inl hx
        · exact Or.inr ⟨f, List.mem_cons_self _ _, hA⟩
        · exact Or.inr ⟨f', List.mem_cons_of_mem _ hf', nb, hnb, hk,
            (hdomF1 k).mp hdom, t, ht, (hidxE t) ▸ hx⟩
      · rintro (hx | ⟨f', hf', nb, hnb, hk, hdom, t, ht, hx⟩)
        · exact Or.inl (Or.inl hx)
        · rcases List.mem_cons.mp hf' with rfl | hf'
          · exact Or.inl (Or.inr ⟨nb, hnb, hk, hdom, t, ht, hx⟩)
          · exact Or.inr ⟨f', hf', nb, hnb, hk, (hdomF1 k).mpr hdom, t, ht,
              (hidxE t).symm ▸ hx⟩

lemma runPhase2_isSome (fs : List PyFile) :
    ∀ (g : DependencyGraph),
      (∀ p ∈ g.files, (g.file_dependencies p).isSome) →
      (∀ f ∈ fs, ∀ nb ∈ stmtsFuncDefs f.stmts,
        (g.function_dependencies (uniqueName f.path nb.1)).isSome) →
      (runPhase2 fs g).isSome := by
  induction fs with
  | nil =>
    intro g _ _
    unfold runPhase2
    simp
  | cons f fs ih =>
    intro g hwfF hwfD
    obtain ⟨g1, hg1⟩ := Option.isSome_iff_exists.mp
      (resolve_dependencies_isSome f g hwfF (hwfD f (List.mem_cons_self _ _)))
    obtain ⟨⟨hfl1, hfn1, hidx1, hdomF1, hdomP1⟩, hfe1, hce1⟩ :=
      resolve_dependencies_spec f g g1 hg1
    have hwfF1 : ∀ p ∈ g1.files, (g1.file_dependencies p).isSome := by
      intro p hp
      rw [hfl1] at hp
      rw [hdomP1 p]
      exact hwfF p hp
    have hwfD1 : ∀ f' ∈ fs, ∀ nb ∈ stmtsFuncDefs f'.stmts,
        (g1.function_dependencies (uniqueName f'.path nb.1)).isSome := by
      intro f' hf' nb hnb
      rw [hdomF1]
      exact hwfD f' (List.mem_cons_of_mem _ hf') nb hnb
    cases hres : runPhase2 (f :: fs) g with
    | some gr => rfl
    | none =>
      exfalso
      unfold runPhase2 at hres
      rw [List.foldlM_cons] at hres
      simp only [Option.bind_eq_bind] at hres
      rw [Option.bind_eq_none] at hres
      have hnone : runPhase2 fs g1 = none := hres g1 hg1
      have hpos := ih g1 hwfF1 hwfD1
      rw [hnone] at hpos
      cases hpos

/-! ### Characterization of the full two-phase analysis -/

lemma runAnalysisFrom_isSome (fs : List PyFile) (g : DependencyGraph)
    (hwfF : ∀ p ∈ g.files, (g.file_dependencies p).isSome) :
    (runAnalysisFrom g fs).isSome := by
  unfold runAnalysisFrom
  apply runPhase2_isSome
  · intro p hp
    rw [runPhase1_fileDeps_isSome]
    rcases (runPhase1_files_mem fs g p).mp hp with hg | hex
    · exact Or.inl (hwfF p hg)
    · exact Or.inr hex
  · intro f hf nb hnb
    rw [runPhase1_fdeps_isSome]
    exact Or.inr ⟨f, hf, List.mem_map.mpr ⟨nb, hnb, rfl⟩⟩

lemma runAnalysis_isSome (fs : List PyFile) : (runAnalysis fs).isSome := by
  unfold runAnalysis
  refine runAnalysisFrom_isSome fs emptyGraph ?_
  intro p hp
  cases hp

lemma runAnalysis_files_mem (fs : List PyFile) (G : DependencyGraph)
    (h : runAnalysis fs = some G) :
    ∀ p, p ∈ G.files ↔ ∃ f ∈ fs, f.path = p := by
  have h2 : runPhase2 fs (runPhase1 fs emptyGraph) = some G := h
  obtain ⟨⟨hfl, _, _, _, _⟩, _, _⟩ := runPhase2_spec fs _ G h2
  intro p
  rw [hfl, runPhase1_files_mem]
  constructor
  · rintro (hp | hex)
    · cases hp
    · exact hex
  · exact Or.inr

lemma runAnalysis_idx_mem (fs : List PyFile) (G : DependencyGraph)
    (h : runAnalysis fs = some G) :
    ∀ n x, x ∈ idxEntries G n ↔
      ∃ f ∈ fs, x = uniqueName f.path n ∧
        n ∈ (stmtsFuncDefs f.stmts).map Prod.fst := by
  have h2 : runPhase2 fs (runPhase1 fs emptyGraph) = some G := h
  obtain ⟨⟨_, _, hidx, _, _⟩, _, _⟩ := runPhase2_spec fs _ G h2
  intro n x
  have hE : idxEntries G n = idxEntries (runPhase1 fs emptyGraph) n := by
    unfold idxEntries
    rw [hidx]
  rw [hE, runPhase1_idx_mem]
  constructor
  · rintro (hp | hex)
    · cases hp
    · exact hex
  · exact Or.inr

lemma runAnalysis_fdeps_isSome (fs : List PyFile) (G : DependencyGraph)
    (h : runAnalysis fs = some G) :
    ∀ k, (G.function_dependencies k).isSome ↔
      ∃ f ∈ fs, k ∈ (stmtsFuncDefs f.stmts).map (fun nb => uniqueName f.path nb.1) := by
  have h2 : runPhase2 fs (runPhase1 fs emptyGraph) = some G := h
  obtain ⟨⟨_, _, _, hdomF, _⟩, _, _⟩ := runPhase2_spec fs _ G h2
  intro k
  rw [hdomF k, runPhase1_fdeps_isSome]
  constructor
  · rintro (hp | hex)
    · cases hp
    · exact hex
  · exact Or.inr

lemma runAnalysis_call_edges (fs : List PyFile) (G : DependencyGraph)
    (h : runAnalysis fs = some G) :
    ∀ k x, x ∈ edgesOf G k ↔
      ∃ f ∈ fs, ∃ nb ∈ stmtsFuncDefs f.stmts, uniqueName f.path nb.1 = k ∧
        ∃ t ∈ bodyCalls nb.2, x ∈ idxEntries G t := by
  have h2 : runPhase2 fs (runPhase1 fs emptyGraph) = some G := h
  obtain ⟨⟨hfl, hfn, hidx, hdomF, hdomP⟩, hfe, hce⟩ := runPhase2_spec fs _ G h2
  intro k x
  rw [hce k x]
  have hP0 : edgesOf (runPhase1 fs emptyGraph) k = (∅ : Finset String) := by
    rw [runPhase1_edgesOf]
    rfl
  rw [hP0]
  have hidxE : ∀ n, idxEntries G n = idxEntries (runPhase1 fs emptyGraph) n := by
    intro n
    unfold idxEntries
    rw [hidx]
  simp only [Finset.not_mem_empty, false_or]
  constructor
  · rintro ⟨f, hf, nb, hnb, hk, hdom, t, ht, hx⟩
    exact ⟨f, hf, nb, hnb, hk, t, ht, (hidxE t).symm ▸ hx⟩
  · rintro ⟨f, hf, nb, hnb, hk, t, ht, hx⟩
    refine ⟨f, hf, nb, hnb, hk, ?_, t, ht, (hidxE t) ▸ hx⟩
    rw [runPhase1_fdeps_isSome]
    exact Or.inr ⟨f, hf, List.mem_map.mpr ⟨nb, hnb, hk⟩⟩

lemma runAnalysis_file_edges (fs : List PyFile) (G : DependencyGraph)
    (h : runAnalysis fs = some G) :
    ∀ p q, q ∈ fileEdgesOf G p ↔
      ∃ f ∈ fs, p = f.path ∧ q ∈ G.files ∧ q ≠ f.path ∧
        ∃ m ∈ stmtsImportMods f.stmts,
          (pyEndsWith q (pyReplaceDots m ++ ".py") ∨
           pyEndsWith q (pyReplaceDots m ++ "/__init__.py")) := by
  have h2 : runPhase2 fs (runPhase1 fs emptyGraph) = some G := h
  obtain ⟨⟨hfl, hfn, hidx, hdomF, hdomP⟩, hfe, hce⟩ := runPhase2_spec fs _ G h2
  intro p q
  rw [hfe p q]
  have hP0 : fileEdgesOf (runPhase1 fs emptyGraph) p = (∅ : Finset String) := by
    rw [runPhase1_fileEdgesOf]
    rfl
  rw [hP0]
  simp only [Finset.not_mem_empty, false_or]
  constructor
  · rintro ⟨f, hf, hp, hfm, hqm, hqne, hex⟩
    refine ⟨f, hf, hp, ?_, hqne, hex⟩
    rw [hfl]
    exact hqm
  · rintro ⟨f, hf, hp, hqm, hqne, hex⟩
    refine ⟨f, hf, hp, ?_, ?_, hqne, hex⟩
    · rw [runPhase1_files_mem]
      exact Or.inr ⟨f, hf, rfl⟩
    · rw [hfl] at hqm
      exact hqm

lemma runAnalysis_fileDeps_isSome (fs : List PyFile) (G : DependencyGraph)
    (h : runAnalysis fs = some G) :
    ∀ p, (G.file_dependencies p).isSome ↔ ∃ f ∈ fs, f.path = p := by
  have h2 : runPhase2 fs (runPhase1 fs emptyGraph) = some G := h
  obtain ⟨⟨_, _, _, _, hdomP⟩, _, _⟩ := runPhase2_spec fs _ G h2
  intro p
  rw [hdomP p, runPhase1_fileDeps_isSome]
  constructor
  · rintro (hp | hex)
    · cases hp
    · exact hex
  · exact Or.inr

/-! ### Reachable states of the Graph Store -/

lemma runOpsFrom_idx (ops : List GOp) :
    ∀ (g gr : DependencyGraph), runOpsFrom g ops = some gr →
      ∀ n, idxEntries gr n = idxEntries g n ++ regsFor ops n := by
  induction ops with
  | nil =>
    intro g gr h n
    unfold runOpsFrom at h
    simp only [List.foldlM_nil] at h
    cases h
    simp [regsFor]
  | cons op ops ih =>
    intro g gr h n
    unfold runOpsFrom at h
    rw [List.foldlM_cons] at h
    simp only [Option.bind_eq_bind] at h
    obtain ⟨g1, h1, h2⟩ := Option.bind_eq_some.mp h
    have h2a : runOpsFrom g1 ops = some gr := h2
    have hih := ih g1 gr h2a n
    cases op with
    | registerFile p =>
      cases h1
      rw [hih]
      have : idxEntries (add_file g p) n = idxEntries g n := by
        unfold idxEntries
        rw [add_file_function_name_index]
      rw [this]
      simp [regsFor, List.filterMap_cons]
    | registerFunction n' p =>
      cases h1
      rw [hih, add_function_idxEntries]
      by_cases hn : n = n'
      · subst hn
        rw [if_pos rfl]
        simp only [regsFor, List.filterMap_cons, if_pos rfl]
        rw [List.append_assoc]
        rfl
      · rw [if_neg hn]
        simp only [regsFor, List.filterMap_cons]
        have hn' : ¬ n' = n := fun hc => hn hc.symm
        rw [if_neg hn']
    | addFileEdge s t =>
      obtain ⟨⟨_, _, hidx1, _, _⟩, _⟩ := add_file_dependency_spec g g1 s t h1
      rw [hih]
      have : idxEntries g1 n = idxEntries g n := by
        unfold idxEntries
        rw [hidx1]
      rw [this]
      simp [regsFor, List.filterMap_cons]
    | addCallEdge s t =>
      obtain ⟨⟨_, _, hidx1, _, _⟩, _⟩ := add_function_dependency_spec g g1 s t h1
      rw [hih]
      have : idxEntries g1 n = idxEntries g n := by
        unfold idxEntries
        rw [hidx1]
      rw [this]
      simp [regsFor, List.filterMap_cons]

lemma runOpsFrom_functions (ops : List GOp) :
    ∀ (g gr : DependencyGraph), runOpsFrom g ops = some gr →
      ∀ k, (gr.functions k).isSome ↔ (g.functions k).isSome ∨ k ∈ regKeys ops := by
  induction ops with
  | nil =>
    intro g gr h k
    unfold runOpsFrom at h
    simp only [List.foldlM_nil] at h
    cases h
    simp [regKeys]
  | cons op ops ih =>
    intro g gr h k
    unfold runOpsFrom at h
    rw [List.foldlM_cons] at h
    simp only [Option.bind_eq_bind] at h
    obtain ⟨g1, h1, h2⟩ := Option.bind_eq_some.mp h
    have hih := ih g1 gr h2 k
    cases op with
    | registerFile p =>
      cases h1
      rw [hih, add_file_functions]
      simp only [regKeys, List.filterMap_cons]
    | registerFunction n' p =>
      cases h1
      rw [hih, add_function_functions_isSome]
      simp only [regKeys, List.filterMap_cons, List.mem_cons]
      tauto
    | addFileEdge s t =>
      obtain ⟨⟨_, hfn1, _, _, _⟩, _⟩ := add_file_dependency_spec g g1 s t h1
      rw [hih, hfn1]
      simp only [regKeys, List.filterMap_cons]
    | addCallEdge s t =>
      obtain ⟨⟨_, hfn1, _, _, _⟩, _⟩ := add_function_dependency_spec g g1 s t h1
      rw [hih, hfn1]
      simp only [regKeys, List.filterMap_cons]

lemma runOpsFrom_fdeps (ops : List GOp) :
    ∀ (g gr : DependencyGraph), runOpsFrom g ops = some gr →
      ∀ k, (gr.function_dependencies k).isSome ↔
        (g.function_dependencies k).isSome ∨ k ∈ regKeys ops := by
  induction ops with
  | nil =>
    intro g gr h k
    unfold runOpsFrom at h
    simp only [List.foldlM_nil] at h
    cases h
    simp [regKeys]
  | cons op ops ih =>
    intro g gr h k
    unfold runOpsFrom at h
    rw [List.foldlM_cons] at h
    simp only [Option.bind_eq_bind] at h
    obtain ⟨g1, h1, h2⟩ := Option.bind_eq_some.mp h
    have hih := ih g1 gr h2 k
    cases op with
    | registerFile p =>
      cases h1
      rw [hih]
      have : ((add_file g p).function_dependencies k).isSome =
          (g.function_dependencies k).isSome := by
        rw [add_file_function_dependencies]
      rw [this]
      simp only [regKeys, List.filterMap_cons]
    | registerFunction n' p =>
      cases h1
      rw [hih, add_function_fdeps_isSome]
      simp only [regKeys, List.filterMap_cons, List.mem_cons]
      tauto
    | addFileEdge s t =>
      obtain ⟨⟨_, _, _, hfdp1, _⟩, _⟩ := add_file_dependency_spec g g1 s t h1
      rw [hih, hfdp1]
      simp only [regKeys, List.filterMap_cons]
    | addCallEdge s t =>
      obtain ⟨⟨_, _, _, _, hdom1⟩, _⟩ := add_function_dependency_spec g g1 s t h1
      rw [hih, hdom1 k]
      simp only [regKeys, List.filterMap_cons]

lemma regsFor_subset_regKeys (ops : List GOp) (n u : String)
    (h : u ∈ regsFor ops n) : u ∈ regKeys ops := by
  unfold regsFor at h
  obtain ⟨op, hop, heq⟩ := List.mem_filterMap.mp h
  unfold regKeys
  refine List.mem_filterMap.mpr ⟨op, hop, ?_⟩
  cases op with
  | registerFile p => simp at heq
  | registerFunction n' p =>
    by_cases hn : n' = n
    · simp only [if_pos hn] at heq
      simpa using heq
    · simp only [if_neg hn] at heq
      cases heq
  | addFileEdge s t => simp at heq
  | addCallEdge s t => simp at heq

/-! ### Concrete inputs used by witnesses and counterexamples -/

/-- Two files: `a.py` defines `f` (whose body calls `g`) and `h`;
`b.py` defines `g`. -/
def c1Files : List PyFile :=
  [⟨"a.py", [.funcDef "f" [.exprStmt (.call (.name "g") [])], .funcDef "h" [.pass]]⟩,
   ⟨"b.py", [.funcDef "g" [.pass]]⟩]

/-- One file that shadows the builtin `len` with a user definition and
calls it from `f`. -/
def c2Files : List PyFile :=
  [⟨"a.py", [.funcDef "len" [.pass], .funcDef "f" [.exprStmt (.call (.name "len") [])]]⟩]

/-- File `main.py` does `from pkg import mod`; `pkg/mod.py` defines `x`. -/
def c3Files : List PyFile :=
  [⟨"main.py", [.importFrom "pkg" ["mod"]]⟩,
   ⟨"pkg/mod.py", [.funcDef "x" [.pass]]⟩]

/-- One file defining `g` and then calling `g()` at module top level. -/
def c10Files : List PyFile :=
  [⟨"a.py", [.funcDef "g" [.pass], .exprStmt (.call (.name "g") [])]⟩]

/-! ### The claims -/

/-- C1: in a full two-phase run, for every function-definition match
`(name, body)` of a file, every call captured inside that body whose
target name has NameIndex entries produces a CallEdge from
`file::name` to each entry; and conversely every CallEdge of the final
graph is attributed to some function-definition match whose own body
subtree contains a call resolving to that target — a call is never
credited to a function whose body does not contain it. -/
theorem C1_call_extraction_scoped (fs : List PyFile) (G : DependencyGraph)
    (h : runAnalysis fs = some G) :
    (∀ f ∈ fs, ∀ nb ∈ stmtsFuncDefs f.stmts, ∀ t ∈ bodyCalls nb.2,
      ∀ B ∈ idxEntries G t, B ∈ edgesOf G (uniqueName f.path nb.1)) ∧
    (∀ A B, B ∈ edgesOf G A →
      ∃ f ∈ fs, ∃ nb ∈ stmtsFuncDefs f.stmts, uniqueName f.path nb.1 = A ∧
        ∃ t ∈ bodyCalls nb.2, B ∈ idxEntries G t) := by
  constructor
  · intro f hf nb hnb t ht B hB
    exact (runAnalysis_call_edges fs G h _ B).mpr ⟨f, hf, nb, hnb, rfl, t, ht, hB⟩
  · intro A B hB
    exact (runAnalysis_call_edges fs G h A B).mp hB

theorem C1_call_extraction_scoped_witness :
    "b.py::g" ∈ edgesOf ((runAnalysis c1Files).getD emptyGraph) "a.py::f" :=
  (C1_call_extraction_scoped c1Files ((runAnalysis c1Files).getD emptyGraph) rfl).1
    ⟨"a.py", [.funcDef "f" [.exprStmt (.call (.name "g") [])], .funcDef "h" [.pass]]⟩
    (List.Mem.head _)
    ("f", [.exprStmt (.call (.name "g") [])])
    (by simp [stmtsFuncDefs, stmtFuncDefs])
    "g" (by decide) "b.py::g" (by decide)

/-- C10: every CallEdge of a full run arises from a call expression
captured inside the body of some function-definition match; in
particular, if no function body contains any call capture, the final
graph has no CallEdges at all — call expressions at module top level
(outside every function body) never produce an edge. -/
theorem C10_top_level_calls_ignored (fs : List PyFile) (G : DependencyGraph)
    (h : runAnalysis fs = some G) :
    (∀ A B, B ∈ edgesOf G A →
      ∃ f ∈ fs, ∃ nb ∈ stmtsFuncDefs f.stmts, uniqueName f.path nb.1 = A ∧
        ∃ t ∈ bodyCalls nb.2, B ∈ idxEntries G t) ∧
    ((∀ f ∈ fs, ∀ nb ∈ stmtsFuncDefs f.stmts, bodyCalls nb.2 = []) →
      ∀ A, edgesOf G A = ∅) := by
  constructor
  · intro A B hB
    exact (runAnalysis_call_edges fs G h A B).mp hB
  · intro hnone A
    refine Finset.eq_empty_iff_forall_not_mem.mpr (fun B hB => ?_)
    obtain ⟨f, hf, nb, hnb, hk, t, ht, hx⟩ := (runAnalysis_call_edges fs G h A B).mp hB
    rw [hnone f hf nb hnb] at ht
    cases ht

theorem C10_top_level_calls_ignored_witness :
    edgesOf ((runAnalysis c10Files).getD emptyGraph) "a.py::g" = ∅ :=
  (C10_top_level_calls_ignored c10Files ((runAnalysis c10Files).getD emptyGraph) rfl).2
    (by decide) "a.py::g"

/-- C3: a FileEdge `(p, q)` exists in a full run exactly when some
analyzed file has path `p` and one of its captured dotted module names
`m`, turned into the two candidate suffixes `m` with dots replaced by
slashes plus `.py`, or plus `/__init__.py`, matches the end of the
registered file `q` distinct from `p`; in particular an import matching
no registered file produces no FileEdge. -/
theorem C3_import_suffix_resolution (fs : List PyFile) (G : DependencyGraph)
    (h : runAnalysis fs = some G) :
    ∀ p q, q ∈ fileEdgesOf G p ↔
      ∃ f ∈ fs, p = f.path ∧ q ∈ G.files ∧ q ≠ f.path ∧
        ∃ m ∈ stmtsImportMods f.stmts,
          (pyEndsWith q (pyReplaceDots m ++ ".py") ∨
           pyEndsWith q (pyReplaceDots m ++ "/__init__.py")) :=
  runAnalysis_file_edges fs G h

theorem C3_import_suffix_resolution_witness :
    "pkg/mod.py" ∈ fileEdgesOf ((runAnalysis c3Files).getD emptyGraph) "main.py" :=
  (C3_import_suffix_resolution c3Files ((runAnalysis c3Files).getD emptyGraph) rfl
      "main.py" "pkg/mod.py").mpr
    ⟨⟨"main.py", [.importFrom "pkg" ["mod"]]⟩, List.Mem.head _, rfl,
      by decide, by decide, "mod", by decide, Or.inl (by decide)⟩

/-- C8: the call query captures, for a call to a bare identifier, that
identifier (as a `@call_name` capture), and for a call through
attribute access, exactly the rightmost identifier of the attribute
chain (as an `@attr_call` capture) — the receiver contributes no
capture of its own at that call node. -/
theorem C8_call_target_extraction :
    (∀ s args, exprCallNames (.call (.name s) args) = s :: exprsCallNames args ∧
      exprAttrCalls (.call (.name s) args) = exprsAttrCalls args) ∧
    (∀ obj fld args,
      exprAttrCalls (.call (.attr obj fld) args) =
        fld :: (exprAttrCalls obj ++ exprsAttrCalls args) ∧
      exprCallNames (.call (.attr obj fld) args) =
        exprCallNames obj ++ exprsCallNames args ∧
      (attrChainIdents (.attr obj fld)).getLast? = some fld ∧
      exprCallNames (.attr obj fld) = exprCallNames obj ∧
      exprAttrCalls (.attr obj fld) = exprAttrCalls obj) := by
  constructor
  · intro s args
    constructor
    · simp [exprCallNames]
    · simp [exprAttrCalls]
  · intro obj fld args
    refine ⟨?_, ?_, ?_, ?_, ?_⟩
    · simp [exprAttrCalls]
    · simp [exprCallNames]
    · simp [attrChainIdents, List.getLast?_concat]
    · simp [exprCallNames]
    · simp [exprAttrCalls]

/-- C2 counterexample: `len` is in the builtin exclusion set, yet the
call `len()` inside `a.py::f` produces the CallEdge
`a.py::f -> a.py::len` because a user-defined function named `len` is
registered — the graph call resolver applies no builtin filter. -/
theorem C2_counterexample_shadowed_builtin :
    "len" ∈ PYTHON_BUILTINS ∧
    (runAnalysis c2Files).isSome ∧
    "a.py::len" ∈ edgesOf ((runAnalysis c2Files).getD emptyGraph) "a.py::f" :=
  ⟨by decide, by decide, by decide⟩

/-- C2 amended: the CallEdge resolver applies no builtin filter; a call
whose target name is in the exclusion set resolves exactly like any
other call — it produces one CallEdge per NameIndex entry of that name
when user definitions shadow it, and when no analyzed file defines a
function of that name, every CallEdge of the run arises from some call
with a different target name (the call to the builtin produces no
edge).  The exclusion set is applied only in the architecture-summary
path (`extract_calls` in src/helper.py), which creates no CallEdges. -/
theorem C2_amended_no_builtin_filter (fs : List PyFile) (G : DependencyGraph)
    (t : String) (h : runAnalysis fs = some G) (hb : t ∈ PYTHON_BUILTINS) :
    (∀ f ∈ fs, ∀ nb ∈ stmtsFuncDefs f.stmts, t ∈ bodyCalls nb.2 →
      ∀ B ∈ idxEntries G t, B ∈ edgesOf G (uniqueName f.path nb.1)) ∧
    ((∀ f ∈ fs, ∀ nb ∈ stmtsFuncDefs f.stmts, nb.1 ≠ t) →
      ∀ A B, B ∈ edgesOf G A →
        ∃ f ∈ fs, ∃ nb ∈ stmtsFuncDefs f.stmts, uniqueName f.path nb.1 = A ∧
          ∃ s ∈ bodyCalls nb.2, s ≠ t ∧ B ∈ idxEntries G s) := by
  constructor
  · intro f hf nb hnb ht B hB
    exact (runAnalysis_call_edges fs G h _ B).mpr ⟨f, hf, nb, hnb, rfl, t, ht, hB⟩
  · intro hnodef A B hB
    obtain ⟨f, hf, nb, hnb, hk, s, hs, hx⟩ := (runAnalysis_call_edges fs G h A B).mp hB
    refine ⟨f, hf, nb, hnb, hk, s, hs, ?_, hx⟩
    intro hst
    subst hst
    obtain ⟨f2, hf2, heq, hmem⟩ := (runAnalysis_idx_mem fs G h s B).mp hx
    obtain ⟨nb2, hnb2, hfst⟩ := List.mem_map.mp hmem
    exact hnodef f2 hf2 nb2 hnb2 hfst

theorem C2_amended_no_builtin_filter_witness :
    "a.py::len" ∈ edgesOf ((runAnalysis c2Files).getD emptyGraph)
      (uniqueName "a.py" "f") :=
  (C2_amended_no_builtin_filter c2Files ((runAnalysis c2Files).getD emptyGraph)
      "len" rfl (by decide)).1
    ⟨"a.py", [.funcDef "len" [.pass], .funcDef "f" [.exprStmt (.call (.name "len") [])]]⟩
    (List.Mem.head _)
    ("f", [.exprStmt (.call (.name "len") [])])
    (by simp [stmtsFuncDefs, stmtFuncDefs])
    (by decide) "a.py::len" (by decide)

/-- C4: `add_function_dependency` with an unindexed target name is a
silent exact no-op; with an indexed target name and a registered source
key it succeeds and inserts exactly the indexed composite keys into the
source's edge set (one CallEdge per definition sharing that local
name), leaving every other key's edge set and all other graph
components unchanged. -/
theorem C4_addCallEdge_fanout (g : DependencyGraph) (src tgt : String) :
    (g.function_name_index tgt = none → add_function_dependency g src tgt = some g) ∧
    (∀ ms, g.function_name_index tgt = some ms →
      (g.function_dependencies src).isSome →
        (add_function_dependency g src tgt).isSome ∧
        ∀ gr, add_function_dependency g src tgt = some gr →
          (∀ x, x ∈ edgesOf gr src ↔ x ∈ edgesOf g src ∨ x ∈ ms) ∧
          (∀ k, k ≠ src → edgesOf gr k = edgesOf g k) ∧
          gr.files = g.files ∧ gr.functions = g.functions ∧
          gr.function_name_index = g.function_name_index ∧
          gr.file_dependencies = g.file_dependencies) := by
  constructor
  · intro hidx
    simp only [add_function_dependency, hidx]
  · intro ms hidx hdom
    refine ⟨add_function_dependency_isSome g src tgt hdom, ?_⟩
    intro gr hgr
    obtain ⟨⟨hfl, hfn, hidx1, hfdp, hdom1⟩, hedges⟩ :=
      add_function_dependency_spec g gr src tgt hgr
    have hms : idxEntries g tgt = ms := by
      unfold idxEntries
      rw [hidx]
      rfl
    refine ⟨?_, ?_, hfl, hfn, hidx1, hfdp⟩
    · intro x
      rw [hedges src x, hms]
      constructor
      · rintro (hx | ⟨-, hx, -⟩)
        · exact Or.inl hx
        · exact Or.inr hx
      · rintro (hx | hx)
        · exact Or.inl hx
        · exact Or.inr ⟨rfl, hx, hdom⟩
    · intro k hk
      refine Finset.ext (fun x => ?_)
      rw [hedges k x]
      simp only [hk, false_and, or_false]

/-- A graph with `helper` defined in two files and a caller in a third,
built directly from the store operations. -/
def c4Graph : DependencyGraph :=
  (add_function
    (add_function (add_function emptyGraph "helper" "a.py").2 "helper" "b.py").2
    "caller" "c.py").2

/-- The graph after resolving a call to `helper` from the caller. -/
def c4Result : DependencyGraph :=
  (add_function_dependency c4Graph "c.py::caller" "helper").getD emptyGraph

theorem C4_addCallEdge_fanout_witness :
    (add_function_dependency c4Graph "c.py::caller" "helper").isSome ∧
    ("a.py::helper" ∈ edgesOf c4Result "c.py::caller") ∧
    ("b.py::helper" ∈ edgesOf c4Result "c.py::caller") := by
  have hp := (C4_addCallEdge_fanout c4Graph "c.py::caller" "helper").2
    ["a.py::helper", "b.py::helper"] rfl (by decide)
  refine ⟨hp.1, ?_, ?_⟩
  · exact ((hp.2 c4Result rfl).1 "a.py::helper").mpr (Or.inr (by decide))
  · exact ((hp.2 c4Result rfl).1 "b.py::helper").mpr (Or.inr (by decide))

/-- C5: `add_file_dependency` is a silent exact no-op unless both files
are registered; with both registered it succeeds, adds the edge with
set semantics (the pair is present afterwards, adding it again changes
no file's edge set), and leaves every other component unchanged. -/
theorem C5_addFileEdge_noop_or_insert (g : DependencyGraph) (s t : String) :
    (¬(s ∈ g.files ∧ t ∈ g.files) → add_file_dependency g s t = some g) ∧
    (s ∈ g.files → t ∈ g.files → (g.file_dependencies s).isSome →
      (add_file_dependency g s t).isSome ∧
      ∀ gr, add_file_dependency g s t = some gr →
        t ∈ fileEdgesOf gr s ∧
        (∀ p q, q ∈ fileEdgesOf gr p ↔ q ∈ fileEdgesOf g p ∨ (p = s ∧ q = t)) ∧
        (∀ gr2, add_file_dependency gr s t = some gr2 →
          ∀ p, fileEdgesOf gr2 p = fileEdgesOf gr p) ∧
        gr.files = g.files ∧ gr.functions = g.functions ∧
        gr.function_name_index = g.function_name_index ∧
        gr.function_dependencies = g.function_dependencies) := by
  constructor
  · exact add_file_dependency_noop g s t
  · intro hs ht hdom
    refine ⟨add_file_dependency_isSome g s t (fun _ => hdom), ?_⟩
    intro gr hgr
    obtain ⟨⟨hfl, hfn, hidx, hfdp, hdomP⟩, hedges⟩ :=
      add_file_dependency_spec g gr s t hgr
    have hmem : t ∈ fileEdgesOf gr s := (hedges s t).mpr (Or.inr ⟨rfl, rfl, hs, ht⟩)
    refine ⟨hmem, ?_, ?_, hfl, hfn, hidx, hfdp⟩
    · intro p q
      rw [hedges p q]
      constructor
      · rintro (hq | ⟨rfl, rfl, -, -⟩)
        · exact Or.inl hq
        · exact Or.inr ⟨rfl, rfl⟩
      · rintro (hq | ⟨rfl, rfl⟩)
        · exact Or.inl hq
        · exact Or.inr ⟨rfl, rfl, hs, ht⟩
    · intro gr2 hgr2 p
      obtain ⟨⟨_, _, _, _, _⟩, hedges2⟩ := add_file_dependency_spec gr gr2 s t hgr2
      refine Finset.ext (fun q => ?_)
      rw [hedges2 p q]
      constructor
      · rintro (hq | ⟨rfl, rfl, -, -⟩)
        · exact hq
        · exact hmem
      · exact Or.inl

/-- Two registered files and no edges yet. -/
def c5Graph : DependencyGraph := add_file (add_file emptyGraph "a.py") "b.py"

/-- The graph after adding the edge `a.py -> b.py` once. -/
def c5Once : DependencyGraph :=
  (add_file_dependency c5Graph "a.py" "b.py").getD emptyGraph

/-- The graph after adding the same edge a second time. -/
def c5Twice : DependencyGraph :=
  (add_file_dependency c5Once "a.py" "b.py").getD emptyGraph

theorem C5_addFileEdge_noop_or_insert_witness :
    (add_file_dependency c5Graph "a.py" "b.py").isSome ∧
    "b.py" ∈ fileEdgesOf c5Once "a.py" ∧
    fileEdgesOf c5Twice "a.py" = fileEdgesOf c5Once "a.py" := by
  have hp := (C5_addFileEdge_noop_or_insert c5Graph "a.py" "b.py").2
    (by decide) (by decide) (by decide)
  exact ⟨hp.1, (hp.2 c5Once rfl).1, (hp.2 c5Once rfl).2.2.1 c5Twice rfl "a.py"⟩

/-- C9: in any state reachable by the Graph Store's public operations,
calling `add_function_dependency` with a source composite key that no
`registerFunction` operation produced, while the target local name has
a non-empty NameIndex entry, raises a `KeyError` (modelled as `none`)
instead of silently dropping the edge. -/
theorem C9_unregistered_source_keyError (ops : List GOp) (g : DependencyGraph)
    (h : runOps ops = some g) (src tgt : String)
    (hsrc : src ∉ regKeys ops)
    (m : String) (rest : List String)
    (hidx : g.function_name_index tgt = some (m :: rest)) :
    add_function_dependency g src tgt = none := by
  have hnotsome : ¬ (g.function_dependencies src).isSome := by
    rw [runOpsFrom_fdeps ops emptyGraph g h src]
    rintro (hc | hc)
    · exact Bool.noConfusion hc
    · exact hsrc hc
  exact add_function_dependency_keyError g src tgt
    (Option.not_isSome_iff_eq_none.mp hnotsome) m rest hidx

/-- One registration: `g` in `b.py`. -/
def c9Ops : List GOp := [.registerFunction "g" "b.py"]

theorem C9_unregistered_source_keyError_witness :
    add_function_dependency ((runOps c9Ops).getD emptyGraph) "a.py::f" "g" = none :=
  C9_unregistered_source_keyError c9Ops ((runOps c9Ops).getD emptyGraph) rfl
    "a.py::f" "g" (by decide) "b.py::g" [] rfl

/-- C6 counterexample: registering the same `(localName, filePath)` pair
twice is a sequence of public Graph Store operations that reaches a
state in which the registered FunctionDefinition `a.py::f` has two
NameIndex entries under its local name, not exactly one. -/
def c6Ops : List GOp := [.registerFunction "f" "a.py", .registerFunction "f" "a.py"]

theorem C6_counterexample_duplicate_registration :
    (runOps c6Ops).isSome ∧
    (((runOps c6Ops).getD emptyGraph).functions "a.py::f").isSome ∧
    idxEntries ((runOps c6Ops).getD emptyGraph) "f" = ["a.py::f", "a.py::f"] ∧
    ¬ (idxEntries ((runOps c6Ops).getD emptyGraph) "f").count "a.py::f" = 1 :=
  ⟨by decide, by decide, by decide, by decide⟩

/-- C6 amended: in every state reachable by the public operations, the
NameIndex entry list under each local name is exactly the list of
composite keys of the `registerFunction` operations with that local
name, in order — one entry per registration call (so a pair registered
twice appears twice); every listed key is registered in the function
table; and when no two registrations of a name collide, each key
appears exactly once. -/
theorem C6_name_index_per_registration (ops : List GOp) (g : DependencyGraph)
    (h : runOps ops = some g) :
    (∀ n, idxEntries g n = regsFor ops n) ∧
    (∀ n u, u ∈ idxEntries g n → (g.functions u).isSome) ∧
    (∀ n, (regsFor ops n).Nodup →
      ∀ u ∈ idxEntries g n, (idxEntries g n).count u = 1) := by
  have hidx : ∀ n, idxEntries g n = regsFor ops n := by
    intro n
    have hrun := runOpsFrom_idx ops emptyGraph g h n
    rw [show idxEntries emptyGraph n = [] from rfl, List.nil_append] at hrun
    exact hrun
  refine ⟨hidx, ?_, ?_⟩
  · intro n u hu
    rw [hidx n] at hu
    rw [runOpsFrom_functions ops emptyGraph g h u]
    exact Or.inr (regsFor_subset_regKeys ops n u hu)
  · intro n hnd u hu
    rw [hidx n] at hu ⊢
    exact List.count_eq_one_of_mem hnd hu

theorem C6_name_index_per_registration_witness :
    idxEntries ((runOps c6Ops).getD emptyGraph) "f" = regsFor c6Ops "f" :=
  (C6_name_index_per_registration c6Ops ((runOps c6Ops).getD emptyGraph) rfl).1 "f"

/-- C7: running the two-phase analysis a second time on the graph
produced by a first full run neither fails nor changes any edge set:
the file-edge set of every file, the call-edge set of every key, and
the file set itself are identical after the second run. -/
theorem C7_second_run_identical_edges (fs : List PyFile) (G1 : DependencyGraph)
    (h1 : runAnalysis fs = some G1) :
    (runAnalysisFrom G1 fs).isSome ∧
    ∀ G2, runAnalysisFrom G1 fs = some G2 →
      (∀ p, fileEdgesOf G2 p = fileEdgesOf G1 p) ∧
      (∀ k, edgesOf G2 k = edgesOf G1 k) ∧
      (∀ p, p ∈ G2.files ↔ p ∈ G1.files) := by
  have hwfF : ∀ p ∈ G1.files, (G1.file_dependencies p).isSome := by
    intro p hp
    rw [runAnalysis_fileDeps_isSome fs G1 h1 p]
    exact (runAnalysis_files_mem fs G1 h1 p).mp hp
  refine ⟨runAnalysisFrom_isSome fs G1 hwfF, ?_⟩
  intro G2 h2
  have h2a : runPhase2 fs (runPhase1 fs G1) = some G2 := h2
  obtain ⟨⟨hfl, hfn, hidx, hdomF, hdomP⟩, hfe, hce⟩ := runPhase2_spec fs _ G2 h2a
  have hfilesP : ∀ p, p ∈ (runPhase1 fs G1).files ↔ p ∈ G1.files := by
    intro p
    rw [runPhase1_files_mem]
    constructor
    · rintro (hp | hex)
      · exact hp
      · exact (runAnalysis_files_mem fs G1 h1 p).mpr hex
    · exact Or.inl
  have hidxP : ∀ n x, x ∈ idxEntries (runPhase1 fs G1) n ↔ x ∈ idxEntries G1 n := by
    intro n x
    rw [runPhase1_idx_mem]
    constructor
    · rintro (hx | hex)
      · exact hx
      · exact (runAnalysis_idx_mem fs G1 h1 n x).mpr hex
    · exact Or.inl
  refine ⟨?_, ?_, ?_⟩
  · intro p
    refine Finset.ext (fun q => ?_)
    rw [hfe p q, runPhase1_fileEdgesOf]
    constructor
    · rintro (hq | ⟨f, hf, hp, hfm, hqm, hqne, hex⟩)
      · exact hq
      · exact (runAnalysis_file_edges fs G1 h1 p q).mpr
          ⟨f, hf, hp, (hfilesP q).mp hqm, hqne, hex⟩
    · exact Or.inl
  · intro k
    refine Finset.ext (fun x => ?_)
    rw [hce k x, runPhase1_edgesOf]
    constructor
    · rintro (hx | ⟨f, hf, nb, hnb, hk, hdom, t, ht, hidxm⟩)
      · exact hx
      · exact (runAnalysis_call_edges fs G1 h1 k x).mpr
          ⟨f, hf, nb, hnb, hk, t, ht, (hidxP t x).mp hidxm⟩
    · exact Or.inl
  · intro p
    rw [hfl]
    exact hfilesP p

/-- File `a.py` calls `g`, defined in `b.py`, and imports nothing. -/
def c7Files : List PyFile :=
  [⟨"a.py", [.funcDef "f" [.exprStmt (.call (.name "g") [])]]⟩,
   ⟨"b.py", [.funcDef "g" [.pass]]⟩]

/-- The graph after the first full run on `c7Files`. -/
def c7G1 : DependencyGraph := (runAnalysis c7Files).getD emptyGraph

/-- The graph after running the full analysis a second time on top. -/
def c7G2 : DependencyGraph := (runAnalysisFrom c7G1 c7Files).getD emptyGraph

theorem C7_second_run_identical_edges_witness :
    (runAnalysisFrom c7G1 c7Files).isSome ∧
    edgesOf c7G2 "a.py::f" = edgesOf c7G1 "a.py::f" ∧
    fileEdgesOf c7G2 "a.py" = fileEdgesOf c7G1 "a.py" := by
  have hp := C7_second_run_identical_edges c7Files c7G1 rfl
  exact ⟨hp.1, (hp.2 c7G2 rfl).2.1 "a.py::f", (hp.2 c7G2 rfl).1 "a.py"⟩

end CodeMentor
